import Mathlib

/-!
Circuit breaker (`patterns/circuit_breaker/main.go`)

A shallow embedding of the `CircuitBreaker` type and of its methods `Call`,
`checkState`, `onFailure`, `onSuccess`, together with the constructor
`NewCircuitBreaker`.

Modelling conventions.

* Go `int` and `time.Duration` are 64-bit signed integers; they are embedded as
  `Int`, and the one arithmetic operation of the source (`++`) wraps modulo
  `2^64` (`wrapInt64`).
* A `time.Time` is an instant in nanoseconds on a single clock line, an `Int`;
  the zero `time.Time` is instant `0`.  `time.Since` saturates to the `int64` range as the
  library does (`since`).
* `sync.RWMutex` is only ever used through `Lock` and `Unlock` in the source, so
  the mutex is one boolean: `true` when the write lock is held.  `Lock` on a held
  mutex waits until somebody releases it; nobody but `Call` touches `cb.mu`.
* The protected operation `fn` is a black box that does not touch the breaker.
  It is described by what it returns and by how long it runs.
* `Call` is run for a single caller.  Its execution is recorded as the breaker it
  leaves behind, the way it ended and the list of events that happened.
-/

namespace CircuitBreakerLab

/-! ## Data model -/

/-- The three states of the breaker (source lines 17-23). -/
inductive State where
  | StateClosed
  | StateOpen
  | StateHalfOpen
  deriving DecidableEq, Repr

/-- Largest `int64`. -/
def maxInt64 : Int := 9223372036854775807

/-- Smallest `int64`. -/
def minInt64 : Int := -9223372036854775808

/-- Two's complement wrap-around of a 64-bit signed addition result. -/
def wrapInt64 (x : Int) : Int :=
  (x + 9223372036854775808) % 18446744073709551616 - 9223372036854775808

/-- The value of `time.Since(t)` read at instant `now`: the difference, saturated
to the range of `time.Duration`. -/
def since (now t : Int) : Int :=
  if now - t > maxInt64 then maxInt64
  else if now - t < minInt64 then minInt64
  else now - t

/-- The dynamic type of an `error` value.  `errors.New` always builds an
`*errors.errorString`; `other` stands for any user-defined error type. -/
inductive ErrorKind where
  | errorString
  | other (typeName : String)
  deriving DecidableEq, Repr

/-- What a caller can inspect of a non-nil `error`: its dynamic type and the text
given by its `Error()` method. -/
structure GoError where
  kind : ErrorKind
  msg : String
  deriving DecidableEq, Repr

/-- The library function `errors.New`. -/
def errorsNew (text : String) : GoError :=
  { kind := ErrorKind.errorString, msg := text }

/-- The struct `CircuitBreaker` (source lines 25-34). -/
structure CircuitBreaker where
  mu : Bool
  state : State
  failureCount : Int
  successCount : Int
  maxFailures : Int
  resetTimeout : Int
  lastFailureTime : Int
  halfOpenMaxCalls : Int
  deriving DecidableEq, Repr

/-- The protected operation passed to `Call`: the `error` it returns (`none` is
`nil`) and the time that passes while it runs. -/
structure Operation where
  result : Option GoError
  elapsed : Nat
  deriving DecidableEq, Repr

/-- What happens during one execution of `Call`, in order. -/
inductive Event where
  | lockAcquired
  | lockWaits
  | unlocked
  | fnInvoked (muHeld : Bool)
  deriving DecidableEq, Repr

/-- How one execution of `Call` ends: it returns an `error` (`none` is `nil`), or
it waits forever in `Lock` for a mutex nobody will release, or the runtime stops
the program because an unlocked mutex is unlocked. -/
inductive Outcome where
  | returned (err : Option GoError)
  | blockedForever
  | fatalUnlock
  deriving DecidableEq, Repr

/-- The record of one execution of `Call`. -/
structure Exec where
  cb : CircuitBreaker
  outcome : Outcome
  trace : List Event
  deriving DecidableEq, Repr

/-! ## Operations -/

/-- The constructor `NewCircuitBreaker` (source lines 36-43).  Fields that the
composite literal leaves out get their zero value. -/
def NewCircuitBreaker (maxFailures : Int) (resetTimeout : Int) : CircuitBreaker :=
  { mu := false
    state := State.StateClosed
    failureCount := 0
    successCount := 0
    maxFailures := maxFailures
    resetTimeout := resetTimeout
    lastFailureTime := 0
    halfOpenMaxCalls := 3 }

/-- The method `checkState` (source lines 77-84), with the clock reading `now`. -/
def checkState (cb : CircuitBreaker) (now : Int) : CircuitBreaker :=
  if cb.state = State.StateOpen then
    if since now cb.lastFailureTime ≥ cb.resetTimeout then
      { cb with state := State.StateHalfOpen, successCount := 0 }
    else cb
  else cb

/-- The method `onFailure` (source lines 86-93), with the clock reading `now`. -/
def onFailure (cb : CircuitBreaker) (now : Int) : CircuitBreaker :=
  let cb1 := { cb with failureCount := wrapInt64 (cb.failureCount + 1), lastFailureTime := now }
  if cb1.failureCount ≥ cb1.maxFailures then
    { cb1 with state := State.StateOpen }
  else cb1

/-- The method `onSuccess` (source lines 95-100). -/
def onSuccess (cb : CircuitBreaker) : CircuitBreaker :=
  let cb1 := { cb with failureCount := 0 }
  if cb1.state = State.StateHalfOpen then
    { cb1 with successCount := wrapInt64 (cb1.successCount + 1) }
  else cb1

/-- The statement `cb.mu.Unlock()` run by a `defer`: `none` when the mutex is not
locked, which the runtime reports as a fatal error. -/
def unlockMu (cb : CircuitBreaker) : Option CircuitBreaker :=
  if cb.mu then some { cb with mu := false } else none

/-- The deferred calls of `Call` run when it returns `err`, last registered
first: `n` times `cb.mu.Unlock()`. -/
def runDeferred : Nat → CircuitBreaker → Option GoError → List Event → Exec
  | 0, cb, err, tr => { cb := cb, outcome := Outcome.returned err, trace := tr }
  | n + 1, cb, err, tr =>
    match unlockMu cb with
    | none => { cb := cb, outcome := Outcome.fatalUnlock, trace := tr }
    | some cb1 => runDeferred n cb1 err (tr ++ [Event.unlocked])

/-- The switch of `Call` (source lines 52-60) applied to a breaker that is not
open: the stale half-open check. -/
def halfOpenCheck (cb : CircuitBreaker) : CircuitBreaker :=
  if cb.state = State.StateHalfOpen then
    if cb.successCount ≥ cb.halfOpenMaxCalls then
      { cb with state := State.StateClosed, successCount := 0 }
    else cb
  else cb

/-- The text of the error built when a call is refused (source line 54). -/
def circuitOpenText : String := "circuit breaker is open"

/-- The second half of `Call` (source lines 62-75), entered with one deferred
`Unlock` registered: run `fn`, take the lock again, register a second deferred
`Unlock`, record the outcome and return. -/
def callAdmitted (cb : CircuitBreaker) (now : Int) (op : Operation) (tr : List Event) : Exec :=
  -- err := fn()
  let tr1 := tr ++ [Event.fnInvoked cb.mu]
  -- cb.mu.Lock()
  if cb.mu then
    { cb := cb, outcome := Outcome.blockedForever, trace := tr1 ++ [Event.lockWaits] }
  else
    let cb1 := { cb with mu := true }
    let tr2 := tr1 ++ [Event.lockAcquired]
    -- defer cb.mu.Unlock()
    match op.result with
    | some e => runDeferred 2 (onFailure cb1 (now + op.elapsed)) (some e) tr2
    | none => runDeferred 2 (onSuccess cb1) none tr2

/-- The method `Call` (source lines 45-75), run by one caller at instant `now`
with the operation `op`. -/
def Call (cb : CircuitBreaker) (now : Int) (op : Operation) : Exec :=
  -- cb.mu.Lock()
  if cb.mu then
    { cb := cb, outcome := Outcome.blockedForever, trace := [Event.lockWaits] }
  else
    -- defer cb.mu.Unlock()
    let cb1 := checkState { cb with mu := true } now
    if cb1.state = State.StateOpen then
      runDeferred 1 cb1 (some (errorsNew circuitOpenText)) [Event.lockAcquired]
    else
      callAdmitted (halfOpenCheck cb1) now op [Event.lockAcquired]

/-- How often the operation was run during an execution. -/
def Exec.invocations (e : Exec) : Nat :=
  (e.trace.filter (fun ev => match ev with
    | Event.fnInvoked _ => true
    | _ => false)).length

/-- Whether the execution came back to its caller. -/
def Exec.hasReturned (e : Exec) : Bool :=
  match e.outcome with
  | Outcome.returned _ => true
  | _ => false

/-- A single caller makes the calls of the list one after the other; a call is
made only when the one before it has returned.  The result is the breaker left
behind and the record of every call that was started. -/
def runCalls : CircuitBreaker → List (Int × Operation) → CircuitBreaker × List Exec
  | cb, [] => (cb, [])
  | cb, (now, op) :: rest =>
    let e := Call cb now op
    if e.hasReturned then
      let r := runCalls e.cb rest
      (r.1, e :: r.2)
    else (e.cb, [e])

/-- An operation that fails with `errors.New("service error")`, as in `main`. -/
def failingOp : Operation :=
  { result := some (errorsNew "service error"), elapsed := 0 }

/-- An operation that succeeds, as in `main`. -/
def succeedingOp : Operation :=
  { result := none, elapsed := 0 }

/-- A breaker that is open since instant `10`, with the settings of `main`. -/
def openBreaker : CircuitBreaker :=
  { mu := false
    state := State.StateOpen
    failureCount := 3
    successCount := 0
    maxFailures := 3
    resetTimeout := 2000000000
    lastFailureTime := 10
    halfOpenMaxCalls := 3 }

/-- A closed breaker that has counted two failures, with the settings of `main`. -/
def closedAfterTwoFailures : CircuitBreaker :=
  { mu := false
    state := State.StateClosed
    failureCount := 2
    successCount := 0
    maxFailures := 3
    resetTimeout := 2000000000
    lastFailureTime := 10
    halfOpenMaxCalls := 3 }

/-- A breaker that has just entered the half-open state, with the settings of
`main`. -/
def halfOpenBreaker : CircuitBreaker :=
  { mu := false
    state := State.StateHalfOpen
    failureCount := 3
    successCount := 0
    maxFailures := 3
    resetTimeout := 2000000000
    lastFailureTime := 10
    halfOpenMaxCalls := 3 }

/-- An operation that fails with an error made by `errors.New` from the very text
the breaker uses when it refuses a call. -/
def lookalikeOp : Operation :=
  { result := some (errorsNew "circuit breaker is open"), elapsed := 0 }

/-- The bookkeeping of a run of failed operations: `onFailure` once for each
clock reading of the list, in order. -/
def recordFailures (cb : CircuitBreaker) (times : List Int) : CircuitBreaker :=
  times.foldl onFailure cb

/-- The scenario of the demo: three failing calls half a second apart, a fourth
call right after the third, and a succeeding call three seconds later. -/
def demoScenario : List (Int × Operation) :=
  [(0, failingOp), (500000000, failingOp), (1000000000, failingOp),
   (1000000000, failingOp), (4000000000, succeedingOp)]

/-! ## Several callers

Every caller runs `Call` in a goroutine of its own.  A caller is at one of the
places of `Call` where it can be overtaken by another caller: before the `Lock`
of line 46, before `fn()` of line 63, before the `Lock` of line 65, or past the
end.  What is done between two such places is done with the mutex held and is
one step.
-/

/-- The place of a caller inside `Call`. -/
inductive Pc where
  | atLock
  | atInvoke
  | atRelock (err : Option GoError)
  | finished (o : Outcome)
  deriving DecidableEq, Repr

/-- One caller: the clock reading and the operation of its call, and its place. -/
structure Caller where
  now : Int
  op : Operation
  pc : Pc
  deriving DecidableEq, Repr

/-- The breaker shared by the callers, and the callers. -/
structure System where
  cb : CircuitBreaker
  callers : List Caller
  deriving DecidableEq, Repr

/-- One step of one caller on the shared breaker.  A caller that asks for a held
mutex, and a caller that has finished, do not move. -/
def stepCaller (cb : CircuitBreaker) (c : Caller) : CircuitBreaker × Caller :=
  match c.pc with
  | Pc.atLock =>
    -- cb.mu.Lock() of line 46, then lines 47-60
    if cb.mu then (cb, c)
    else
      let cb1 := checkState { cb with mu := true } c.now
      if cb1.state = State.StateOpen then
        let e := runDeferred 1 cb1 (some (errorsNew circuitOpenText)) []
        (e.cb, { c with pc := Pc.finished e.outcome })
      else (halfOpenCheck cb1, { c with pc := Pc.atInvoke })
  | Pc.atInvoke =>
    -- err := fn()
    (cb, { c with pc := Pc.atRelock c.op.result })
  | Pc.atRelock err =>
    -- cb.mu.Lock() of line 65, then lines 66-75
    if cb.mu then (cb, c)
    else
      let cb1 := { cb with mu := true }
      let e := match err with
        | some x => runDeferred 2 (onFailure cb1 (c.now + c.op.elapsed)) (some x) []
        | none => runDeferred 2 (onSuccess cb1) none []
      (e.cb, { c with pc := Pc.finished e.outcome })
  | Pc.finished _ => (cb, c)

/-- The scheduler lets caller number `i` make its next step. -/
def stepAt (s : System) (i : Nat) : System :=
  match s.callers[i]? with
  | none => s
  | some c =>
    { cb := (stepCaller s.cb c).1
      callers := s.callers.set i (stepCaller s.cb c).2 }

/-- The system after the scheduler has picked the callers of the list in turn. -/
def runSchedule (s : System) (schedule : List Nat) : System :=
  schedule.foldl stepAt s

/-- All calls of the list are launched on the breaker at once. -/
def launch (cb : CircuitBreaker) (calls : List (Int × Operation)) : System :=
  { cb := cb
    callers := calls.map (fun p => { now := p.1, op := p.2, pc := Pc.atLock }) }

/-- Whether a caller has left `Call`. -/
def Caller.isFinished (c : Caller) : Bool :=
  match c.pc with
  | Pc.finished _ => true
  | _ => false

/-- How many callers have left `Call`. -/
def completed (s : System) : Nat :=
  (s.callers.filter Caller.isFinished).length

/-- The standing of a caller that has not finished: it is before the first `Lock`,
or it is past it and the mutex is held. -/
def Caller.pending (cb : CircuitBreaker) (c : Caller) : Prop :=
  c.pc = Pc.atLock ∨ (cb.mu = true ∧ (c.pc = Pc.atInvoke ∨ ∃ e, c.pc = Pc.atRelock e))

/-- The breaker is closed and no caller has finished. -/
def System.allPending (s : System) : Prop :=
  s.cb.state = State.StateClosed ∧ ∀ c ∈ s.callers, c.pending s.cb

/-! ## The functions of the breaker applied in the order of the text of `Call`

No `Call` of the program gets as far as `onFailure` or `onSuccess`: it waits at
line 65.  What follows is therefore not an execution of `Call`.  It applies the
functions `checkState`, the switch of lines 52-60 and `onFailure` or `onSuccess`
one after the other, to name values of the struct and to state what these
functions keep true of the counters.
-/

/-- The functions `checkState`, the switch of `Call`, and `onFailure` or
`onSuccess`, applied one after the other.  This is not what `Call` does to the
breaker: `Call` stops before `onFailure` and `onSuccess`. -/
def recordCall (cb : CircuitBreaker) (c : Int × Operation) : CircuitBreaker :=
  let cb1 := checkState cb c.1
  if cb1.state = State.StateOpen then cb1
  else
    match c.2.result with
    | some _ => onFailure (halfOpenCheck cb1) (c.1 + c.2.elapsed)
    | none => onSuccess (halfOpenCheck cb1)

/-- The function `recordCall` applied for each entry of a list, in order. -/
def recordCalls (cb : CircuitBreaker) (calls : List (Int × Operation)) : CircuitBreaker :=
  calls.foldl recordCall cb

/-- Three failures, then, after the timeout, three successes. -/
def tripAndRecover : List (Int × Operation) :=
  [(0, failingOp), (1, failingOp), (2, failingOp),
   (2000000002, succeedingOp), (2000000003, succeedingOp), (2000000004, succeedingOp)]

/-- What holds of the counters of a breaker with `maxFailures` `m` whenever the
bookkeeping of a call is complete: the settings are the ones of the constructor,
`successCount` is between 0 and 3, an open breaker has at least `m` failures, a
closed one has fewer, and a half-open one that has its three successes has none. -/
def Settled (m : Int) (cb : CircuitBreaker) : Prop :=
  cb.maxFailures = m ∧ cb.halfOpenMaxCalls = 3 ∧
  0 ≤ cb.successCount ∧ cb.successCount ≤ 3 ∧
  (cb.state = State.StateOpen → m ≤ cb.failureCount) ∧
  (cb.state = State.StateClosed → 0 ≤ cb.failureCount ∧ cb.failureCount < m) ∧
  (cb.state = State.StateHalfOpen → 3 ≤ cb.successCount → cb.failureCount = 0)

/-- A half-open breaker that has its three successes and has not been closed
yet, with the settings of `main`. -/
def staleHalfOpenBreaker : CircuitBreaker :=
  { mu := false
    state := State.StateHalfOpen
    failureCount := 0
    successCount := 3
    maxFailures := 3
    resetTimeout := 2000000000
    lastFailureTime := 2
    halfOpenMaxCalls := 3 }

/-- What the operations returned that were run during the calls of a run, in
order: `calls` are the calls made and `execs` the records of their executions. -/
def admittedResults (calls : List (Int × Operation)) (execs : List Exec) :
    List (Option GoError) :=
  ((calls.zip execs).filter (fun p => decide (0 < p.2.invocations))).map
    (fun p => p.1.2.result)

/-- Three failures one after the other. -/
def threeFailures : List (Int × Operation) :=
  [(0, failingOp), (1, failingOp), (2, failingOp)]

/-- Three failures, then, after the timeout, two successes, a failure and a third
success. -/
def interruptedRecovery : List (Int × Operation) :=
  [(0, failingOp), (1, failingOp), (2, failingOp),
   (2000000002, succeedingOp), (2000000003, succeedingOp),
   (2000000004, failingOp), (2000000005, succeedingOp)]

end CircuitBreakerLab

/-!
String reversal of the fuzz test (`testing/fuzz/main_test.go`)

A Go `string` is a sequence of bytes, and so is the `[]byte` made from it.
-/

namespace FuzzReverse

/-- One byte. -/
abbrev Byte := Fin 256

/-- The statement `b[i], b[j] = b[j], b[i]` (source line 18).  Both indices are
within the slice whenever the loop runs it. -/
def swapBytes (b : List Byte) (i j : Int) : List Byte :=
  match b[i.toNat]?, b[j.toNat]? with
  | some x, some y => (b.set i.toNat y).set j.toNat x
  | _, _ => b

/-- The loop of `Reverse` (source lines 17-19) from the indices `i` and `j` on. -/
def reverseLoop (b : List Byte) (i j : Int) : List Byte :=
  if i < j then reverseLoop (swapBytes b i j) (i + 1) (j - 1) else b
termination_by (j - i).toNat
decreasing_by omega

/-- The function `Reverse` (source lines 15-21). -/
def Reverse (s : List Byte) : List Byte :=
  reverseLoop s 0 (s.length - 1)

end FuzzReverse

/-!
Retry with backoff (`patterns/retry_backoff/main.go`)

* An `error` is described by what `errors.Is` and `Error()` see of it: whether it
  is the value of the variable `ErrTemporaryFailure`, some other error that wraps
  nothing, or an error that wraps another one.
* The operation `fn` is described by what its invocations return, in order:
  `fn n` is what it returns when it has been invoked `n` times before.
* `time.Duration(float64(delay) * 1.5)` is floating-point arithmetic; the function
  that maps the old delay to the new one is a parameter, `scale`.
* Printing is left out; sleeping is recorded as the list of the delays slept.
-/

namespace RetryBackoff

/-- A non-nil `error`. -/
inductive GoErr where
  | temporaryFailure
  | plain (text : String)
  | wrapped (text : String) (inner : GoErr)
  deriving DecidableEq, Repr

/-- The variable `ErrTemporaryFailure` (source line 17). -/
def ErrTemporaryFailure : GoErr := GoErr.temporaryFailure

/-- The text given by `Error()`. -/
def GoErr.text : GoErr → String
  | GoErr.temporaryFailure => "temporary failure"
  | GoErr.plain t => t
  | GoErr.wrapped t _ => t

/-- The library call `errors.Is(err, ErrTemporaryFailure)`: the error is that very
value, or it wraps an error for which this holds. -/
def errorsIsTemporary : GoErr → Bool
  | GoErr.temporaryFailure => true
  | GoErr.plain _ => false
  | GoErr.wrapped _ inner => errorsIsTemporary inner

/-- The error made by `fmt.Errorf("failed after %d retries: %w", maxRetries, err)`
(source line 42); `err` is `nil` when the loop has not run. -/
def failedAfter (maxRetries : Int) (err : Option GoErr) : GoErr :=
  match err with
  | some e => GoErr.wrapped ("failed after " ++ toString maxRetries ++ " retries: " ++ e.text) e
  | none => GoErr.plain ("failed after " ++ toString maxRetries ++ " retries: %!w(<nil>)")

/-- What a run of `RetryWithBackoff` leaves behind: the `error` it returns (`none`
is `nil`), how often `fn` was invoked, and the delays it slept, in order. -/
structure RetryRun where
  err : Option GoErr
  calls : Nat
  sleeps : List Int
  deriving DecidableEq, Repr

/-- The loop of `RetryWithBackoff` (source lines 24-42) from the state `i`,
`delay`, `err` on, `fn` having been invoked `calls` times and `sleeps` having been
slept.  The first argument bounds the number of rounds; `none` means that it was
too small. -/
def retryLoop (scale : Int → Int) (maxRetries : Int) (fn : Nat → Option GoErr) :
    Nat → Int → Int → Option GoErr → Nat → List Int → Option RetryRun
  | 0, _, _, _, _, _ => none
  | fuel + 1, i, delay, err, calls, sleeps =>
    if i < maxRetries then
      -- err = fn()
      match fn calls with
      | none => some { err := none, calls := calls + 1, sleeps := sleeps }
      | some e =>
        if errorsIsTemporary e = false then
          some { err := some e, calls := calls + 1, sleeps := sleeps }
        else if i < maxRetries - 1 then
          retryLoop scale maxRetries fn fuel (i + 1) (scale delay) (some e) (calls + 1)
            (sleeps ++ [delay])
        else
          retryLoop scale maxRetries fn fuel (i + 1) delay (some e) (calls + 1) sleeps
    else
      some { err := some (failedAfter maxRetries err), calls := calls, sleeps := sleeps }

/-- The function `RetryWithBackoff` (source lines 20-43).  The loop runs at most
`maxRetries` rounds and one more test of its condition. -/
def RetryWithBackoff (scale : Int → Int) (maxRetries : Int) (initialDelay : Int)
    (fn : Nat → Option GoErr) : Option RetryRun :=
  retryLoop scale maxRetries fn (maxRetries.toNat + 1) 0 initialDelay none 0 []

/-- The function `ExponentialBackoff` (source lines 46-48).  The parameter `powTwo`
gives `time.Duration(math.Pow(2, float64(attempt)))`, a floating-point
computation converted to `int64`; the product is a product of two `int64`. -/
def ExponentialBackoff (powTwo : Int → Int) (attempt : Int) (baseDelay : Int) : Int :=
  CircuitBreakerLab.wrapInt64 (powTwo attempt * baseDelay)

/-- The operation of `main` (source lines 51-59): it fails with
`ErrTemporaryFailure` twice and then succeeds. -/
def demoOperation (n : Nat) : Option GoErr :=
  if n + 1 < 3 then some ErrTemporaryFailure else none

/-- An operation that fails once with `ErrTemporaryFailure` and from then on with
another error. -/
def brokenOperation (n : Nat) : Option GoErr :=
  if n < 1 then some ErrTemporaryFailure else some (GoErr.plain "disk full")

/-- The delay update of line 38 on delays for which it is exact: one and a half
times the delay, cut off towards zero. -/
def scaleThreeHalves (delay : Int) : Int :=
  Int.tdiv (3 * delay) 2

/-- Two to the power `attempt`, for the attempts on which `math.Pow` and the
conversion are exact. -/
def powTwoExact (attempt : Int) : Int :=
  2 ^ attempt.toNat

end RetryBackoff

/-!
Functional options (`patterns/functional_options/main.go`)

An `Option` of the source is a function that changes the server it is given; it
is embedded as a function from the server before to the server after.
-/

namespace FunctionalOptions

/-- The struct `Server` (source lines 16-21). -/
structure Server where
  host : String
  port : Int
  timeout : Int
  tls : Bool
  deriving DecidableEq, Repr

/-- The type `Option` of the source (line 24). -/
abbrev ServerOption := Server → Server

/-- The function `WithHost` (source lines 27-31). -/
def WithHost (host : String) : ServerOption :=
  fun s => { s with host := host }

/-- The function `WithPort` (source lines 33-37). -/
def WithPort (port : Int) : ServerOption :=
  fun s => { s with port := port }

/-- The function `WithTimeout` (source lines 39-43). -/
def WithTimeout (timeout : Int) : ServerOption :=
  fun s => { s with timeout := timeout }

/-- The function `WithTLS` (source lines 45-49). -/
def WithTLS (tls : Bool) : ServerOption :=
  fun s => { s with tls := tls }

/-- The server of the composite literal of `NewServer` (source lines 54-59);
`30 * time.Second` is 30000000000 nanoseconds. -/
def defaultServer : Server :=
  { host := "localhost", port := 8080, timeout := 30000000000, tls := false }

/-- The function `NewServer` (source lines 52-67). -/
def NewServer (opts : List ServerOption) : Server :=
  opts.foldl (fun s opt => opt s) defaultServer

/-- A call of one of the four functions that make an option. -/
inductive Setting where
  | host (h : String)
  | port (p : Int)
  | timeout (t : Int)
  | tls (b : Bool)
  deriving DecidableEq, Repr

/-- The option made by the call. -/
def Setting.toOption : Setting → ServerOption
  | Setting.host h => WithHost h
  | Setting.port p => WithPort p
  | Setting.timeout t => WithTimeout t
  | Setting.tls b => WithTLS b

/-- The host named by a call of `WithHost`. -/
def Setting.hostOf : Setting → Option String
  | Setting.host h => some h
  | _ => none

/-- The port named by a call of `WithPort`. -/
def Setting.portOf : Setting → Option Int
  | Setting.port p => some p
  | _ => none

/-- The timeout named by a call of `WithTimeout`. -/
def Setting.timeoutOf : Setting → Option Int
  | Setting.timeout t => some t
  | _ => none

/-- The flag named by a call of `WithTLS`. -/
def Setting.tlsOf : Setting → Option Bool
  | Setting.tls b => some b
  | _ => none

end FunctionalOptions

/-!
The repository of the unit tests (`testing/unit/main_test.go`)

A `map[int]*User` is embedded as the function that gives, for a key, the user
stored under it, if there is one.  The map is the one made by
`NewMockUserRepository`, and the users handed to `SetUser` are not `nil`.
-/

namespace UnitTesting

/-- The function `Add` (source lines 18-20): the sum of two `int`, which wraps
around like every sum of 64-bit integers. -/
def Add (a b : Int) : Int :=
  CircuitBreakerLab.wrapInt64 (a + b)

/-- The struct `User` (source lines 163-166). -/
structure User where
  ID : Int
  Name : String
  deriving DecidableEq, Repr

/-- The struct `MockUserRepository` (source lines 168-170). -/
structure MockUserRepository where
  users : Int → Option User

/-- The struct `NotFoundError` (source lines 190-192). -/
structure NotFoundError where
  ID : Int
  deriving DecidableEq, Repr

/-- The method `Error` of `NotFoundError` (source lines 194-196). -/
def NotFoundError.Error (_e : NotFoundError) : String := "user not found"

/-- The function `NewMockUserRepository` (source lines 172-176). -/
def NewMockUserRepository : MockUserRepository :=
  { users := fun _ => none }

/-- The method `GetUser` (source lines 178-184): the user and the error it
returns, `none` being `nil`. -/
def GetUser (m : MockUserRepository) (id : Int) : Option User × Option NotFoundError :=
  match m.users id with
  | none => (none, some { ID := id })
  | some user => (some user, none)

/-- The method `SetUser` (source lines 186-188). -/
def SetUser (m : MockUserRepository) (user : User) : MockUserRepository :=
  { users := fun id => if id = user.ID then some user else m.users id }

/-- The repository in which the users of the list have been stored, in order. -/
def storeAll (stored : List User) : MockUserRepository :=
  stored.foldl SetUser NewMockUserRepository

end UnitTesting

/-!
Value and pointer receivers (`fundamentals/methods/main.go`)

A `float64` is embedded as the rational number it stands for.  On the values
used below, small whole numbers, the products and the sum of `Distance` are
exact in `float64`.
-/

namespace Methods

/-- The struct `Point` (source lines 76-78). -/
structure Point where
  X : ℚ
  Y : ℚ
  deriving DecidableEq

/-- The method `Distance` (source lines 81-83). -/
def Point.Distance (p : Point) : ℚ :=
  p.X * p.X + p.Y * p.Y

end Methods

/-!
Structs and pointers (`fundamentals/types_structs/main.go`)

Variables and allocated structs live in a memory that maps an address to the
`Person` stored there.  A `*Person` is an address.
-/

namespace TypesStructs

/-- The struct `Person` (source lines 17-28); `BirthDate` is an instant, the zero
`time.Time` being 0. -/
structure Person where
  Name : String
  Age : Int
  email : String
  BirthDate : Int
  deriving DecidableEq, Repr

/-- The memory: the `Person` stored at an address, if there is one. -/
abbrev Memory := Nat → Option Person

/-- Storing a `Person` at an address. -/
def Memory.store (mem : Memory) (addr : Nat) (p : Person) : Memory :=
  fun a => if a = addr then some p else mem a

/-- The method `SetEmail` (source lines 92-94), whose receiver `p` is a pointer:
it writes the field `email` of the `Person` that `p` points to. -/
def SetEmail (mem : Memory) (p : Nat) (email : String) : Memory :=
  fun a => if a = p then (mem a).map (fun x => { x with email := email }) else mem a

/-- The method `GetEmail` (source lines 86-88). -/
def GetEmail (p : Person) : String :=
  p.email

/-- The function `demonstratePointers` (source lines 127-138): the memory when it
prints.  The variable `p1` is at address 0; `p2` is the address 1 of the struct
made by `&Person{...}`.  The variable `p1` is addressable and `SetEmail` has a
pointer receiver, so `p1.SetEmail(...)` is `(&p1).SetEmail(...)`. -/
def demonstratePointers : Memory :=
  -- p1 := Person{Name: "John", Age: 30}
  let mem1 := Memory.store (fun _ => none) 0
    { Name := "John", Age := 30, email := "", BirthDate := 0 }
  -- p1.SetEmail("john@example.com")
  let mem2 := SetEmail mem1 0 "john@example.com"
  -- p2 := &Person{Name: "Jane", Age: 25}
  let mem3 := Memory.store mem2 1
    { Name := "Jane", Age := 25, email := "", BirthDate := 0 }
  -- p2.SetEmail("jane@example.com")
  SetEmail mem3 1 "jane@example.com"

end TypesStructs

namespace CircuitBreakerLab

/-! ## Elapsed time -/

theorem since_lt_of_sub_lt (now t : Int) (r : Int)
    (hlow : minInt64 ≤ now - t) (hlt : now - t < r) : since now t < r := by
  unfold since
  unfold minInt64 at hlow
  unfold maxInt64 minInt64
  split_ifs with h1 h2 <;> omega

theorem le_since_of_le_sub (now t : Int) (r : Int)
    (hr : r ≤ maxInt64) (hle : r ≤ now - t) : r ≤ since now t := by
  unfold since
  unfold maxInt64 at hr
  unfold maxInt64 minInt64
  split_ifs with h1 h2 <;> omega

/-! ## The admission check -/

theorem checkState_open_early (cb : CircuitBreaker) (now : Int)
    (hopen : cb.state = State.StateOpen)
    (hlt : since now cb.lastFailureTime < cb.resetTimeout) :
    checkState cb now = cb := by
  unfold checkState
  rw [if_pos hopen, if_neg (not_le.mpr hlt)]

theorem checkState_open_late (cb : CircuitBreaker) (now : Int)
    (hopen : cb.state = State.StateOpen)
    (hge : cb.resetTimeout ≤ since now cb.lastFailureTime) :
    checkState cb now = { cb with state := State.StateHalfOpen, successCount := 0 } := by
  unfold checkState
  rw [if_pos hopen, if_pos hge]

theorem checkState_not_open (cb : CircuitBreaker) (now : Int)
    (h : cb.state ≠ State.StateOpen) : checkState cb now = cb := by
  unfold checkState
  rw [if_neg h]

/-- A call on an open breaker whose timeout has not run out: the error is built,
the deferred `Unlock` runs, nothing else happens. -/
theorem Call_of_open_early (cb : CircuitBreaker) (now : Int) (op : Operation)
    (hmu : cb.mu = false) (hopen : cb.state = State.StateOpen)
    (hlt : since now cb.lastFailureTime < cb.resetTimeout) :
    Call cb now op =
      { cb := cb
        outcome := Outcome.returned (some (errorsNew circuitOpenText))
        trace := [Event.lockAcquired, Event.unlocked] } := by
  obtain ⟨mu, st, fc, sc, mf, rt, lt, hm⟩ := cb
  simp only at hmu hopen hlt
  subst hmu hopen
  have hc := checkState_open_early
    { mu := true, state := State.StateOpen, failureCount := fc, successCount := sc,
      maxFailures := mf, resetTimeout := rt, lastFailureTime := lt, halfOpenMaxCalls := hm }
    now rfl hlt
  simp [Call, hc, runDeferred, unlockMu]

theorem checkState_mu (cb : CircuitBreaker) (now : Int) :
    (checkState cb now).mu = cb.mu := by
  unfold checkState
  split_ifs <;> rfl

theorem halfOpenCheck_mu (cb : CircuitBreaker) : (halfOpenCheck cb).mu = cb.mu := by
  unfold halfOpenCheck
  split_ifs <;> rfl

/-- Every call that passes the admission check runs the operation once, with the
mutex held, and then waits in its second `Lock` for the mutex it holds itself. -/
theorem Call_of_admitted (cb : CircuitBreaker) (now : Int) (op : Operation)
    (hmu : cb.mu = false)
    (hadm : (checkState { cb with mu := true } now).state ≠ State.StateOpen) :
    Call cb now op =
      { cb := halfOpenCheck (checkState { cb with mu := true } now)
        outcome := Outcome.blockedForever
        trace := [Event.lockAcquired, Event.fnInvoked true, Event.lockWaits] } := by
  have hheld : (halfOpenCheck (checkState { cb with mu := true } now)).mu = true := by
    rw [halfOpenCheck_mu, checkState_mu]
  unfold Call
  rw [if_neg (by simp [hmu])]
  simp only [if_neg hadm]
  unfold callAdmitted
  simp [hheld]

/-! ## Bookkeeping -/

theorem wrapInt64_of_range (x : Int) (hlo : minInt64 ≤ x) (hhi : x ≤ maxInt64) :
    wrapInt64 x = x := by
  unfold minInt64 at hlo
  unfold maxInt64 at hhi
  unfold wrapInt64
  omega

theorem onFailure_below (cb : CircuitBreaker) (t : Int)
    (h0 : 0 ≤ cb.failureCount) (hlt : cb.failureCount + 1 < cb.maxFailures)
    (hm : cb.maxFailures ≤ maxInt64) :
    onFailure cb t = { cb with failureCount := cb.failureCount + 1, lastFailureTime := t } := by
  have hw : wrapInt64 (cb.failureCount + 1) = cb.failureCount + 1 :=
    wrapInt64_of_range _ (by unfold minInt64; omega) (by omega)
  unfold onFailure
  simp only [hw]
  rw [if_neg (by simpa using hlt)]

theorem onFailure_reach (cb : CircuitBreaker) (t : Int)
    (h0 : 0 ≤ cb.failureCount) (hge : cb.maxFailures ≤ cb.failureCount + 1)
    (hfc : cb.failureCount < maxInt64) :
    (onFailure cb t).state = State.StateOpen := by
  have hw : wrapInt64 (cb.failureCount + 1) = cb.failureCount + 1 :=
    wrapInt64_of_range _ (by unfold minInt64; omega) (by omega)
  unfold onFailure
  simp only [hw]
  rw [if_pos (by simpa using hge)]

theorem recordFailures_below (times : List Int) :
    ∀ cb : CircuitBreaker, 0 ≤ cb.failureCount →
      cb.failureCount + times.length < cb.maxFailures → cb.maxFailures ≤ maxInt64 →
      (recordFailures cb times).state = cb.state ∧
      (recordFailures cb times).failureCount = cb.failureCount + times.length ∧
      (recordFailures cb times).maxFailures = cb.maxFailures := by
  induction times with
  | nil => intro cb _ _ _; simp [recordFailures]
  | cons t rest ih =>
    intro cb h0 hlt hm
    simp only [List.length_cons, Nat.cast_add, Nat.cast_one] at hlt
    have hstep := onFailure_below cb t h0 (by omega) hm
    have hrec := ih (onFailure cb t) (by rw [hstep]; simp; omega)
      (by rw [hstep]; simp; omega) (by rw [hstep]; simpa using hm)
    have hfold : recordFailures cb (t :: rest) = recordFailures (onFailure cb t) rest := rfl
    rw [hfold]
    rw [hstep] at hrec ⊢
    simp only [List.length_cons, Nat.cast_add, Nat.cast_one]
    refine ⟨hrec.1, ?_, hrec.2.2⟩
    rw [hrec.2.1]
    ring

theorem recordFailures_reach (times : List Int) :
    ∀ cb : CircuitBreaker, 0 ≤ cb.failureCount → times ≠ [] →
      cb.failureCount + times.length = cb.maxFailures → cb.maxFailures ≤ maxInt64 →
      (recordFailures cb times).state = State.StateOpen := by
  induction times with
  | nil => intro cb _ hne _ _; exact absurd rfl hne
  | cons t rest ih =>
    intro cb h0 _ heq hm
    simp only [List.length_cons, Nat.cast_add, Nat.cast_one] at heq
    have hfold : recordFailures cb (t :: rest) = recordFailures (onFailure cb t) rest := rfl
    rw [hfold]
    cases rest with
    | nil =>
      simp only [List.length_nil, Nat.cast_zero] at heq
      exact onFailure_reach cb t h0 (by omega) (by omega)
    | cons u more =>
      simp only [List.length_cons, Nat.cast_add, Nat.cast_one] at heq
      have hstep := onFailure_below cb t h0 (by omega) hm
      apply ih (onFailure cb t)
      · rw [hstep]; simp; omega
      · simp
      · rw [hstep]; simp only [List.length_cons, Nat.cast_add, Nat.cast_one]; omega
      · rw [hstep]; simpa using hm

theorem onSuccess_halfOpen (cb : CircuitBreaker) (hhalf : cb.state = State.StateHalfOpen)
    (h0 : 0 ≤ cb.successCount) (hhi : cb.successCount < maxInt64) :
    onSuccess cb = { cb with failureCount := 0, successCount := cb.successCount + 1 } := by
  have hw : wrapInt64 (cb.successCount + 1) = cb.successCount + 1 :=
    wrapInt64_of_range _ (by unfold minInt64; omega) (by omega)
  unfold onSuccess
  simp only [hw]
  rw [if_pos (by simpa using hhalf)]

/-! ## Claims -/

/-- C2: a call on an open breaker, made while the time since the last failure is
still below `resetTimeout`, returns the error "circuit breaker is open", does not
run the operation and leaves the breaker exactly as it found it. -/
theorem Call_open_before_timeout_rejected (cb : CircuitBreaker) (now : Int) (op : Operation)
    (hmu : cb.mu = false) (hopen : cb.state = State.StateOpen)
    (hlow : minInt64 ≤ now - cb.lastFailureTime)
    (hlt : now - cb.lastFailureTime < cb.resetTimeout) :
    (Call cb now op).outcome = Outcome.returned (some (errorsNew "circuit breaker is open")) ∧
    (Call cb now op).invocations = 0 ∧
    (Call cb now op).cb = cb := by
  rw [Call_of_open_early cb now op hmu hopen (since_lt_of_sub_lt _ _ _ hlow hlt)]
  exact ⟨rfl, rfl, rfl⟩

theorem Call_open_before_timeout_rejected_witness :
    (Call openBreaker 2000000009 failingOp).outcome
        = Outcome.returned (some (errorsNew "circuit breaker is open")) ∧
    (Call openBreaker 2000000009 failingOp).invocations = 0 ∧
    (Call openBreaker 2000000009 failingOp).cb = openBreaker :=
  Call_open_before_timeout_rejected openBreaker 2000000009 failingOp rfl rfl
    (by decide) (by decide)

/-- C3: on an open breaker whose last failure was recorded at `T`, a call at an
instant `now ≥ T + resetTimeout` (equality included) leaves the state half-open
with `successCount` 0 and runs the operation once; a call at `now < T +
resetTimeout` is refused and the operation is not run. -/
theorem Call_open_timeout_boundary (cb : CircuitBreaker) (now : Int) (op : Operation)
    (hmu : cb.mu = false) (hopen : cb.state = State.StateOpen)
    (hr : cb.resetTimeout ≤ maxInt64)
    (hlow : minInt64 ≤ now - cb.lastFailureTime)
    (hmax : 0 < cb.halfOpenMaxCalls) :
    (cb.lastFailureTime + cb.resetTimeout ≤ now →
      (Call cb now op).cb.state = State.StateHalfOpen ∧
      (Call cb now op).cb.successCount = 0 ∧
      (Call cb now op).invocations = 1) ∧
    (now < cb.lastFailureTime + cb.resetTimeout →
      (Call cb now op).outcome = Outcome.returned (some (errorsNew "circuit breaker is open")) ∧
      (Call cb now op).invocations = 0) := by
  constructor
  · intro hge
    have hs : cb.resetTimeout ≤ since now cb.lastFailureTime :=
      le_since_of_le_sub _ _ _ hr (by omega)
    have hc : checkState { cb with mu := true } now
        = { cb with mu := true, state := State.StateHalfOpen, successCount := 0 } :=
      checkState_open_late { cb with mu := true } now hopen hs
    have hh : halfOpenCheck { cb with mu := true, state := State.StateHalfOpen, successCount := 0 }
        = { cb with mu := true, state := State.StateHalfOpen, successCount := 0 } := by
      unfold halfOpenCheck
      rw [if_pos rfl, if_neg (by simpa using hmax)]
    rw [Call_of_admitted cb now op hmu (by rw [hc]; simp), hc, hh]
    exact ⟨rfl, rfl, rfl⟩
  · intro hlt
    rw [Call_of_open_early cb now op hmu hopen (since_lt_of_sub_lt _ _ _ hlow (by omega))]
    exact ⟨rfl, rfl⟩

theorem Call_open_timeout_boundary_witness :
    ((Call openBreaker 2000000010 succeedingOp).cb.state = State.StateHalfOpen ∧
      (Call openBreaker 2000000010 succeedingOp).cb.successCount = 0 ∧
      (Call openBreaker 2000000010 succeedingOp).invocations = 1) ∧
    ((Call openBreaker 2000000009 succeedingOp).outcome
        = Outcome.returned (some (errorsNew "circuit breaker is open")) ∧
      (Call openBreaker 2000000009 succeedingOp).invocations = 0) :=
  ⟨(Call_open_timeout_boundary openBreaker 2000000010 succeedingOp rfl rfl
      (by decide) (by decide) (by decide)).1 (by decide),
   (Call_open_timeout_boundary openBreaker 2000000009 succeedingOp rfl rfl
      (by decide) (by decide) (by decide)).2 (by decide)⟩

theorem onSuccess_thrice (cb : CircuitBreaker) (hhalf : cb.state = State.StateHalfOpen)
    (hsc : cb.successCount = 0) :
    onSuccess (onSuccess (onSuccess cb)) = { cb with failureCount := 0, successCount := 3 } := by
  obtain ⟨mu, st, fc, sc, mf, rt, lt, hm⟩ := cb
  simp only at hhalf hsc
  subst hhalf hsc
  simp [onSuccess, wrapInt64]

theorem Call_of_stale_halfOpen (cb : CircuitBreaker) (now : Int) (op : Operation)
    (hmu : cb.mu = false) (hhalf : cb.state = State.StateHalfOpen)
    (hge : cb.halfOpenMaxCalls ≤ cb.successCount) :
    Call cb now op =
      { cb := { cb with mu := true, state := State.StateClosed, successCount := 0 }
        outcome := Outcome.blockedForever
        trace := [Event.lockAcquired, Event.fnInvoked true, Event.lockWaits] } := by
  have hc : checkState { cb with mu := true } now = { cb with mu := true } :=
    checkState_not_open _ now (by simp [hhalf])
  have hh : halfOpenCheck { cb with mu := true }
      = { cb with mu := true, state := State.StateClosed, successCount := 0 } := by
    unfold halfOpenCheck
    rw [if_pos hhalf, if_pos (by simpa using hge)]
  rw [Call_of_admitted cb now op hmu (by rw [hc]; simp [hhalf]), hc, hh]

/-- C4, counterexample: three calls with a succeeding operation on a breaker that
has just become half-open do not leave it closed; nor do three recorded
successes. -/
theorem three_successes_do_not_close :
    (runCalls halfOpenBreaker
        [(0, succeedingOp), (1, succeedingOp), (2, succeedingOp)]).1.state ≠ State.StateClosed ∧
    (onSuccess (onSuccess (onSuccess halfOpenBreaker))).state = State.StateHalfOpen ∧
    (onSuccess (onSuccess (onSuccess halfOpenBreaker))).successCount = 3 := by
  decide

/-- C4, amended: on a breaker that has just become half-open (`successCount` 0),
three recorded successes leave the state half-open with `successCount` 3 and
`failureCount` 0; the admission check of the next call then sets the state to
closed and `successCount` to 0 before it runs the operation, `failureCount`
still being 0; from that breaker fewer than `maxFailures` recorded failures leave
the state closed and `maxFailures` recorded failures make it open. -/
theorem halfOpen_closes_at_next_admission (cb : CircuitBreaker) (now : Int) (op : Operation)
    (times : List Int)
    (hmu : cb.mu = false) (hhalf : cb.state = State.StateHalfOpen)
    (hsc : cb.successCount = 0) (hcalls : cb.halfOpenMaxCalls = 3)
    (hm1 : 1 ≤ cb.maxFailures) (hm2 : cb.maxFailures ≤ maxInt64) :
    (onSuccess (onSuccess (onSuccess cb))).state = State.StateHalfOpen ∧
    (onSuccess (onSuccess (onSuccess cb))).successCount = 3 ∧
    (onSuccess (onSuccess (onSuccess cb))).failureCount = 0 ∧
    (Call (onSuccess (onSuccess (onSuccess cb))) now op).cb.state = State.StateClosed ∧
    (Call (onSuccess (onSuccess (onSuccess cb))) now op).cb.successCount = 0 ∧
    (Call (onSuccess (onSuccess (onSuccess cb))) now op).cb.failureCount = 0 ∧
    (Call (onSuccess (onSuccess (onSuccess cb))) now op).invocations = 1 ∧
    ((times.length : Int) < cb.maxFailures →
      (recordFailures (Call (onSuccess (onSuccess (onSuccess cb))) now op).cb times).state
        = State.StateClosed) ∧
    ((times.length : Int) = cb.maxFailures →
      (recordFailures (Call (onSuccess (onSuccess (onSuccess cb))) now op).cb times).state
        = State.StateOpen) := by
  rw [onSuccess_thrice cb hhalf hsc]
  rw [Call_of_stale_halfOpen { cb with failureCount := 0, successCount := 3 } now op hmu hhalf
    (by show cb.halfOpenMaxCalls ≤ 3; omega)]
  refine ⟨hhalf, rfl, rfl, rfl, rfl, rfl, rfl, ?_, ?_⟩
  · intro hlen
    exact (recordFailures_below times
      { cb with mu := true, state := State.StateClosed, failureCount := 0, successCount := 0 }
      (le_refl (0 : Int)) (by show (0 : Int) + times.length < cb.maxFailures; omega) hm2).1
  · intro hlen
    have hne : times ≠ [] := by
      intro h
      rw [h] at hlen
      simp at hlen
      omega
    exact recordFailures_reach times
      { cb with mu := true, state := State.StateClosed, failureCount := 0, successCount := 0 }
      (le_refl (0 : Int)) hne (by show (0 : Int) + times.length = cb.maxFailures; omega) hm2

theorem halfOpen_closes_at_next_admission_witness :
    (onSuccess (onSuccess (onSuccess halfOpenBreaker))).state = State.StateHalfOpen ∧
    (onSuccess (onSuccess (onSuccess halfOpenBreaker))).successCount = 3 ∧
    (onSuccess (onSuccess (onSuccess halfOpenBreaker))).failureCount = 0 ∧
    (Call (onSuccess (onSuccess (onSuccess halfOpenBreaker))) 5 succeedingOp).cb.state
      = State.StateClosed ∧
    (Call (onSuccess (onSuccess (onSuccess halfOpenBreaker))) 5 succeedingOp).cb.successCount = 0 ∧
    (Call (onSuccess (onSuccess (onSuccess halfOpenBreaker))) 5 succeedingOp).cb.failureCount = 0 ∧
    (Call (onSuccess (onSuccess (onSuccess halfOpenBreaker))) 5 succeedingOp).invocations = 1 ∧
    (recordFailures (Call (onSuccess (onSuccess (onSuccess halfOpenBreaker))) 5 succeedingOp).cb
      [6, 7]).state = State.StateClosed ∧
    (recordFailures (Call (onSuccess (onSuccess (onSuccess halfOpenBreaker))) 5 succeedingOp).cb
      [6, 7, 8]).state = State.StateOpen :=
  have h2 := halfOpen_closes_at_next_admission halfOpenBreaker 5 succeedingOp [6, 7]
    rfl rfl rfl rfl (by decide) (by decide)
  have h3 := halfOpen_closes_at_next_admission halfOpenBreaker 5 succeedingOp [6, 7, 8]
    rfl rfl rfl rfl (by decide) (by decide)
  ⟨h2.1, h2.2.1, h2.2.2.1, h2.2.2.2.1, h2.2.2.2.2.1, h2.2.2.2.2.2.1, h2.2.2.2.2.2.2.1,
    h2.2.2.2.2.2.2.2.1 (by decide), h3.2.2.2.2.2.2.2.2 (by decide)⟩

/-- C1: with `maxFailures` 1 the single failing call runs the operation and then
waits forever in its second `Lock`; `onFailure` is never reached, so the breaker
stays closed with `failureCount` 0, although `onFailure` itself would open it. -/
theorem single_failing_Call_never_opens :
    (Call (NewCircuitBreaker 1 2000000000) 0 failingOp).outcome = Outcome.blockedForever ∧
    (runCalls (NewCircuitBreaker 1 2000000000) [(0, failingOp)]).1.state = State.StateClosed ∧
    (runCalls (NewCircuitBreaker 1 2000000000) [(0, failingOp)]).1.failureCount = 0 ∧
    (onFailure (NewCircuitBreaker 1 2000000000) 0).state = State.StateOpen := by
  decide

/-- C5: a call with a succeeding operation on a closed breaker does not return
`nil`, it does not return at all; the `failureCount` it found is still there,
although `onSuccess` itself would set it to 0. -/
theorem succeeding_Call_on_closed_never_returns :
    (Call (NewCircuitBreaker 3 2000000000) 0 succeedingOp).outcome ≠ Outcome.returned none ∧
    (Call closedAfterTwoFailures 11 succeedingOp).outcome = Outcome.blockedForever ∧
    (Call closedAfterTwoFailures 11 succeedingOp).cb.failureCount = 2 ∧
    (onSuccess closedAfterTwoFailures).failureCount = 0 := by
  decide

/-- C6: an admitted call runs the operation once but hands nothing back to its
caller, neither the `nil` nor the error the operation returned. -/
theorem admitted_Call_returns_nothing :
    (Call (NewCircuitBreaker 3 2000000000) 0 succeedingOp).invocations = 1 ∧
    (Call (NewCircuitBreaker 3 2000000000) 0 succeedingOp).hasReturned = false ∧
    (Call (NewCircuitBreaker 3 2000000000) 0 failingOp).invocations = 1 ∧
    (Call (NewCircuitBreaker 3 2000000000) 0 failingOp).outcome
      ≠ Outcome.returned failingOp.result := by
  decide

/-- C7: on a fresh breaker, on the success path as on the failure path, `Call`
takes the lock, runs the operation and then asks for the lock it still holds;
it never gets it and never releases the one it has. -/
theorem Call_waits_for_its_own_lock :
    (Call (NewCircuitBreaker 3 2000000000) 0 succeedingOp).trace
      = [Event.lockAcquired, Event.fnInvoked true, Event.lockWaits] ∧
    (Call (NewCircuitBreaker 3 2000000000) 0 succeedingOp).outcome = Outcome.blockedForever ∧
    (Call (NewCircuitBreaker 3 2000000000) 0 failingOp).trace
      = [Event.lockAcquired, Event.fnInvoked true, Event.lockWaits] ∧
    (Call (NewCircuitBreaker 3 2000000000) 0 failingOp).outcome = Outcome.blockedForever ∧
    (Call (NewCircuitBreaker 3 2000000000) 0 failingOp).cb.mu = true := by
  decide

/-- C8: during an admitted call the operation runs with the lock held: the lock
is not released between its acquisition and the invocation. -/
theorem operation_runs_with_lock_held :
    Event.fnInvoked true ∈ (Call (NewCircuitBreaker 3 2000000000) 0 succeedingOp).trace ∧
    Event.fnInvoked false ∉ (Call (NewCircuitBreaker 3 2000000000) 0 succeedingOp).trace ∧
    Event.unlocked ∉ (Call (NewCircuitBreaker 3 2000000000) 0 succeedingOp).trace ∧
    Event.fnInvoked true ∈ (Call openBreaker 2000000010 succeedingOp).trace := by
  decide

/-- C9, counterexample: the error of a refused call is the very value an
operation returns that fails with `errors.New("circuit breaker is open")`, and it
has the kind of the error of the demo operation. -/
theorem refusal_error_is_an_operation_error :
    (Call openBreaker 11 lookalikeOp).outcome = Outcome.returned lookalikeOp.result ∧
    (Call openBreaker 11 lookalikeOp).invocations = 0 ∧
    failingOp.result = some (errorsNew "service error") ∧
    (errorsNew "circuit breaker is open").kind = (errorsNew "service error").kind := by
  decide

/-- C9, amended: a refused call returns `errors.New("circuit breaker is open")`,
an error of the kind every `errors.New` error has; an operation error `e` is the
same to a caller exactly when it has that kind and that text. -/
theorem refusal_error_shape (cb : CircuitBreaker) (now : Int) (op : Operation) (e : GoError)
    (hmu : cb.mu = false) (hopen : cb.state = State.StateOpen)
    (hlt : since now cb.lastFailureTime < cb.resetTimeout) :
    (Call cb now op).outcome = Outcome.returned (some (errorsNew "circuit breaker is open")) ∧
    (errorsNew "circuit breaker is open").kind = ErrorKind.errorString ∧
    (errorsNew "circuit breaker is open" = e ↔
      e.kind = ErrorKind.errorString ∧ e.msg = "circuit breaker is open") := by
  rw [Call_of_open_early cb now op hmu hopen hlt]
  refine ⟨rfl, rfl, ?_⟩
  obtain ⟨k, m⟩ := e
  simp only [errorsNew, GoError.mk.injEq]
  constructor
  · rintro ⟨h1, h2⟩
    exact ⟨h1.symm, h2.symm⟩
  · rintro ⟨h1, h2⟩
    exact ⟨h1.symm, h2.symm⟩

theorem refusal_error_shape_witness :
    (Call openBreaker 11 failingOp).outcome
      = Outcome.returned (some (errorsNew "circuit breaker is open")) ∧
    (errorsNew "circuit breaker is open").kind = ErrorKind.errorString ∧
    (errorsNew "circuit breaker is open" = errorsNew "service error" ↔
      (errorsNew "service error").kind = ErrorKind.errorString ∧
      (errorsNew "service error").msg = "circuit breaker is open") :=
  refusal_error_shape openBreaker 11 failingOp (errorsNew "service error") rfl rfl (by decide)

/-- C10: in the demo scenario the first of the three failing calls never returns:
one call is started, it ends waiting for the lock, and the breaker is closed with
`failureCount` 0 instead of open. -/
theorem demo_stops_in_first_Call :
    (runCalls (NewCircuitBreaker 3 2000000000) demoScenario).1.state = State.StateClosed ∧
    (runCalls (NewCircuitBreaker 3 2000000000) demoScenario).1.failureCount = 0 ∧
    (runCalls (NewCircuitBreaker 3 2000000000) demoScenario).2.map Exec.outcome
      = [Outcome.blockedForever] := by
  decide

/-! ## Several callers on a closed breaker -/

theorem halfOpenCheck_of_closed (cb : CircuitBreaker) (h : cb.state = State.StateClosed) :
    halfOpenCheck cb = cb := by
  unfold halfOpenCheck
  rw [if_neg (by rw [h]; decide)]

theorem stepCaller_pending (cb : CircuitBreaker) (c : Caller)
    (hcl : cb.state = State.StateClosed) (hc : c.pending cb) :
    (stepCaller cb c).1.state = State.StateClosed ∧
    (cb.mu = true → (stepCaller cb c).1.mu = true) ∧
    (stepCaller cb c).2.pending (stepCaller cb c).1 := by
  obtain ⟨now, op, pc⟩ := c
  cases pc with
  | atLock =>
    by_cases hmu : cb.mu = true
    · simp [stepCaller, hmu, hcl, Caller.pending]
    · obtain ⟨mu, st, fc, sc, mf, rt, lt, hm⟩ := cb
      simp only at hcl hmu
      subst hcl
      have hc1 := checkState_not_open
        { mu := true, state := State.StateClosed, failureCount := fc, successCount := sc,
          maxFailures := mf, resetTimeout := rt, lastFailureTime := lt, halfOpenMaxCalls := hm }
        now (fun h => State.noConfusion h)
      have hh := halfOpenCheck_of_closed
        { mu := true, state := State.StateClosed, failureCount := fc, successCount := sc,
          maxFailures := mf, resetTimeout := rt, lastFailureTime := lt, halfOpenMaxCalls := hm }
        rfl
      simp [stepCaller, hmu, hc1, hh, Caller.pending]
  | atInvoke =>
    rcases hc with h | ⟨hmu, _⟩
    · simp at h
    · simp [stepCaller, hmu, hcl, Caller.pending]
  | atRelock e =>
    rcases hc with h | ⟨hmu, _⟩
    · simp at h
    · simp [stepCaller, hmu, hcl, Caller.pending]
  | finished o =>
    rcases hc with h | ⟨_, h | ⟨e, h⟩⟩ <;> simp at h

theorem Caller.pending_of_mu (cb cb1 : CircuitBreaker) (c : Caller)
    (hmu : cb.mu = true → cb1.mu = true) (hc : c.pending cb) : c.pending cb1 := by
  rcases hc with h | ⟨h1, h2⟩
  · exact Or.inl h
  · exact Or.inr ⟨hmu h1, h2⟩

theorem stepAt_allPending (s : System) (i : Nat) (hs : s.allPending) :
    (stepAt s i).allPending := by
  unfold stepAt
  cases hget : s.callers[i]? with
  | none => exact hs
  | some c =>
    have hmem : c ∈ s.callers := List.getElem?_mem hget
    obtain ⟨h1, h2, h3⟩ := stepCaller_pending s.cb c hs.1 (hs.2 c hmem)
    refine ⟨h1, ?_⟩
    intro d hd
    rcases List.mem_or_eq_of_mem_set hd with hd1 | hd2
    · exact Caller.pending_of_mu s.cb _ d h2 (hs.2 d hd1)
    · rw [hd2]; exact h3

theorem runSchedule_allPending (schedule : List Nat) :
    ∀ s : System, s.allPending → (runSchedule s schedule).allPending := by
  induction schedule with
  | nil => intro s hs; exact hs
  | cons i rest ih => intro s hs; exact ih (stepAt s i) (stepAt_allPending s i hs)

theorem launch_allPending (cb : CircuitBreaker) (calls : List (Int × Operation))
    (hcl : cb.state = State.StateClosed) : (launch cb calls).allPending := by
  refine ⟨hcl, ?_⟩
  intro c hc
  simp only [launch, List.mem_map] at hc
  obtain ⟨p, _, hp⟩ := hc
  rw [← hp]
  exact Or.inl rfl

theorem completed_of_allPending (s : System) (hs : s.allPending) : completed s = 0 := by
  unfold completed
  rw [List.length_eq_zero, List.filter_eq_nil_iff]
  intro c hc
  rcases hs.2 c hc with h | ⟨_, h | ⟨e, h⟩⟩ <;> simp [Caller.isFinished, h]

theorem stepAt_length (s : System) (i : Nat) : (stepAt s i).callers.length = s.callers.length := by
  unfold stepAt
  cases s.callers[i]? <;> simp

theorem runSchedule_length (schedule : List Nat) :
    ∀ s : System, (runSchedule s schedule).callers.length = s.callers.length := by
  induction schedule with
  | nil => intro s; rfl
  | cons i rest ih =>
    intro s
    exact (ih (stepAt s i)).trans (stepAt_length s i)

/-- C11: however many calls are launched at once on a fresh breaker and however
the scheduler lets them run, none of them ever leaves `Call`: all of them are
still there, so no call returns `nil`; the breaker stays closed with
`failureCount` 0 because nothing is ever recorded. -/
theorem concurrent_Calls_never_complete (m r : Int) (calls : List (Int × Operation))
    (schedule : List Nat) :
    completed (runSchedule (launch (NewCircuitBreaker m r) calls) schedule) = 0 ∧
    (runSchedule (launch (NewCircuitBreaker m r) calls) schedule).callers.length
      = calls.length ∧
    (runSchedule (launch (NewCircuitBreaker m r) calls) schedule).cb.state
      = State.StateClosed := by
  have hinv := runSchedule_allPending schedule _
    (launch_allPending (NewCircuitBreaker m r) calls rfl)
  refine ⟨completed_of_allPending _ hinv, ?_, hinv.1⟩
  rw [runSchedule_length]
  simp [launch]

/-- C12: the constructor gives a closed breaker with both counters at 0, with the
two settings it was given, and with `halfOpenMaxCalls` 3. -/
theorem NewCircuitBreaker_fields (maxFailures resetTimeout : Int) :
    (NewCircuitBreaker maxFailures resetTimeout).state = State.StateClosed ∧
    (NewCircuitBreaker maxFailures resetTimeout).failureCount = 0 ∧
    (NewCircuitBreaker maxFailures resetTimeout).successCount = 0 ∧
    (NewCircuitBreaker maxFailures resetTimeout).maxFailures = maxFailures ∧
    (NewCircuitBreaker maxFailures resetTimeout).resetTimeout = resetTimeout ∧
    (NewCircuitBreaker maxFailures resetTimeout).halfOpenMaxCalls = 3 :=
  ⟨rfl, rfl, rfl, rfl, rfl, rfl⟩

/-- What `onFailure` does when it is run, as long as the counter does not
overflow. -/
theorem onFailure_effect (cb : CircuitBreaker) (now : Int)
    (hlo : minInt64 ≤ cb.failureCount) (hhi : cb.failureCount < maxInt64) :
    (onFailure cb now).failureCount = cb.failureCount + 1 ∧
    (onFailure cb now).lastFailureTime = now ∧
    (onFailure cb now).successCount = cb.successCount ∧
    (onFailure cb now).state =
      if cb.maxFailures ≤ cb.failureCount + 1 then State.StateOpen else cb.state := by
  have hw : wrapInt64 (cb.failureCount + 1) = cb.failureCount + 1 :=
    wrapInt64_of_range _ (by unfold minInt64 at *; omega) (by omega)
  unfold onFailure
  simp only [hw, ge_iff_le]
  split_ifs <;> exact ⟨rfl, rfl, rfl, rfl⟩

/-- C13: an admitted call whose operation fails records nothing: on a fresh
breaker `failureCount` is still 0 and `lastFailureTime` still the zero time, on a
breaker with two failures and `maxFailures` 3 the state is still closed; the call
waits for its own lock, and `onFailure`, which would do what is said, is not
reached. -/
theorem failing_Call_records_nothing :
    (Call (NewCircuitBreaker 3 2000000000) 11 failingOp).outcome = Outcome.blockedForever ∧
    (Call (NewCircuitBreaker 3 2000000000) 11 failingOp).cb.failureCount = 0 ∧
    (Call (NewCircuitBreaker 3 2000000000) 11 failingOp).cb.lastFailureTime = 0 ∧
    (onFailure (NewCircuitBreaker 3 2000000000) 11).failureCount = 1 ∧
    (onFailure (NewCircuitBreaker 3 2000000000) 11).lastFailureTime = 11 ∧
    (Call closedAfterTwoFailures 11 failingOp).cb.failureCount = 2 ∧
    (Call closedAfterTwoFailures 11 failingOp).cb.state = State.StateClosed ∧
    (onFailure closedAfterTwoFailures 11).failureCount = 3 ∧
    (onFailure closedAfterTwoFailures 11).state = State.StateOpen := by
  decide

/-! ## The counters when the breaker closes again -/

theorem onFailure_mu (cb : CircuitBreaker) (t : Int) : (onFailure cb t).mu = cb.mu := by
  unfold onFailure
  simp only
  split_ifs <;> rfl

theorem onSuccess_mu (cb : CircuitBreaker) : (onSuccess cb).mu = cb.mu := by
  unfold onSuccess
  simp only
  split_ifs <;> rfl

theorem recordCall_mu (cb : CircuitBreaker) (c : Int × Operation) :
    (recordCall cb c).mu = cb.mu := by
  unfold recordCall
  simp only
  split_ifs
  · exact checkState_mu cb c.1
  · cases c.2.result with
    | none => simp only [onSuccess_mu, halfOpenCheck_mu, checkState_mu]
    | some e => simp only [onFailure_mu, halfOpenCheck_mu, checkState_mu]

theorem recordCalls_mu (calls : List (Int × Operation)) :
    ∀ cb : CircuitBreaker, (recordCalls cb calls).mu = cb.mu := by
  induction calls with
  | nil => intro cb; rfl
  | cons c rest ih =>
    intro cb
    exact (ih (recordCall cb c)).trans (recordCall_mu cb c)

theorem halfOpenCheck_stale (cb : CircuitBreaker) (h1 : cb.state = State.StateHalfOpen)
    (h2 : cb.halfOpenMaxCalls ≤ cb.successCount) :
    halfOpenCheck cb = { cb with state := State.StateClosed, successCount := 0 } := by
  unfold halfOpenCheck
  rw [if_pos h1, if_pos h2]

theorem halfOpenCheck_young (cb : CircuitBreaker) (h2 : cb.successCount < cb.halfOpenMaxCalls) :
    halfOpenCheck cb = cb := by
  unfold halfOpenCheck
  rw [if_neg (not_le.mpr h2)]
  split_ifs <;> rfl

theorem halfOpenCheck_other (cb : CircuitBreaker) (h1 : cb.state ≠ State.StateHalfOpen) :
    halfOpenCheck cb = cb := by
  unfold halfOpenCheck
  rw [if_neg h1]

/-- After the admission check a half-open breaker has fewer successes than
`halfOpenMaxCalls`. -/
theorem halfOpenCheck_halfOpen (cb : CircuitBreaker)
    (h : (halfOpenCheck cb).state = State.StateHalfOpen) :
    (halfOpenCheck cb).successCount < (halfOpenCheck cb).halfOpenMaxCalls := by
  by_cases h1 : cb.state = State.StateHalfOpen
  · by_cases h2 : cb.halfOpenMaxCalls ≤ cb.successCount
    · rw [halfOpenCheck_stale cb h1 h2] at h
      exact State.noConfusion h
    · rw [halfOpenCheck_young cb (not_le.mp h2)]
      exact not_le.mp h2
  · rw [halfOpenCheck_other cb h1] at h
    exact absurd h h1

theorem onFailure_successCount (cb : CircuitBreaker) (t : Int) :
    (onFailure cb t).successCount = cb.successCount
      ∧ (onFailure cb t).halfOpenMaxCalls = cb.halfOpenMaxCalls := by
  unfold onFailure
  simp only
  split_ifs <;> exact ⟨rfl, rfl⟩

theorem onFailure_state (cb : CircuitBreaker) (t : Int) :
    (onFailure cb t).state = State.StateOpen ∨ (onFailure cb t).state = cb.state := by
  unfold onFailure
  simp only
  split_ifs
  · exact Or.inl rfl
  · exact Or.inr rfl

theorem onSuccess_failureCount (cb : CircuitBreaker) : (onSuccess cb).failureCount = 0 := by
  unfold onSuccess
  simp only
  split_ifs <;> rfl

/-- Whatever the breaker was, after the bookkeeping of a call a half-open breaker
that has its `halfOpenMaxCalls` successes has `failureCount` 0. -/
theorem recordCall_settled (cb : CircuitBreaker) (c : Int × Operation)
    (hhalf : (recordCall cb c).state = State.StateHalfOpen)
    (hsc : (recordCall cb c).halfOpenMaxCalls ≤ (recordCall cb c).successCount) :
    (recordCall cb c).failureCount = 0 := by
  unfold recordCall at hhalf hsc ⊢
  simp only at hhalf hsc ⊢
  by_cases hopen : (checkState cb c.1).state = State.StateOpen
  · rw [if_pos hopen] at hhalf
    rw [hopen] at hhalf
    exact State.noConfusion hhalf
  · rw [if_neg hopen] at hhalf hsc ⊢
    cases hres : c.2.result with
    | none =>
      simp only [hres]
      exact onSuccess_failureCount _
    | some e =>
      simp only [hres] at hhalf hsc
      exfalso
      have hf := onFailure_successCount (halfOpenCheck (checkState cb c.1)) (c.1 + c.2.elapsed)
      rw [hf.1, hf.2] at hsc
      rcases onFailure_state (halfOpenCheck (checkState cb c.1)) (c.1 + c.2.elapsed) with h | h
      · rw [h] at hhalf
        exact State.noConfusion hhalf
      · rw [h] at hhalf
        exact absurd hsc (not_le.mpr (halfOpenCheck_halfOpen _ hhalf))

theorem runCalls_of_closed (calls : List (Int × Operation)) (cb : CircuitBreaker)
    (hmu : cb.mu = false) (hcl : cb.state = State.StateClosed) :
    (runCalls cb calls).1.state = State.StateClosed ∧ (runCalls cb calls).2.length ≤ 1 := by
  cases calls with
  | nil => exact ⟨hcl, by simp [runCalls]⟩
  | cons c rest =>
    obtain ⟨now, op⟩ := c
    have hc : checkState { cb with mu := true } now = { cb with mu := true } :=
      checkState_not_open _ now (by show cb.state ≠ State.StateOpen; rw [hcl]; decide)
    have hcall := Call_of_admitted cb now op hmu
      (by rw [hc]; show cb.state ≠ State.StateOpen; rw [hcl]; decide)
    rw [hc, halfOpenCheck_of_closed _ (by exact hcl)] at hcall
    simp [runCalls, hcall, Exec.hasReturned, hcl]

/-- C14: take a breaker made by `NewCircuitBreaker` and any list of earlier calls.
If the bookkeeping of those calls has left the breaker half-open and the next
call moves it to closed, its `failureCount` is 0 at that moment.  In the code as
it stands the calls a single caller can make never take a fresh breaker out of
the closed state at all: at most one call is started. -/
theorem failureCount_zero_when_closing (m r : Int) (history calls : List (Int × Operation))
    (now : Int) (op : Operation)
    (hhalf : (recordCalls (NewCircuitBreaker m r) history).state = State.StateHalfOpen)
    (hmove : (Call (recordCalls (NewCircuitBreaker m r) history) now op).cb.state
      = State.StateClosed) :
    (Call (recordCalls (NewCircuitBreaker m r) history) now op).cb.failureCount = 0 ∧
    (runCalls (NewCircuitBreaker m r) calls).1.state = State.StateClosed ∧
    (runCalls (NewCircuitBreaker m r) calls).2.length ≤ 1 := by
  refine ⟨?_, runCalls_of_closed calls _ rfl rfl⟩
  have hmu : (recordCalls (NewCircuitBreaker m r) history).mu = false :=
    recordCalls_mu history _
  have hsettled : (recordCalls (NewCircuitBreaker m r) history).halfOpenMaxCalls
        ≤ (recordCalls (NewCircuitBreaker m r) history).successCount →
      (recordCalls (NewCircuitBreaker m r) history).failureCount = 0 := by
    intro hsc
    rcases List.eq_nil_or_concat history with hnil | ⟨init, c, hcons⟩
    · rw [hnil] at hhalf
      exact State.noConfusion hhalf
    · have hfold : recordCalls (NewCircuitBreaker m r) history
          = recordCall (recordCalls (NewCircuitBreaker m r) init) c := by
        rw [hcons]
        simp [recordCalls, List.foldl_append]
      rw [hfold] at hhalf hsc ⊢
      exact recordCall_settled _ c hhalf hsc
  generalize recordCalls (NewCircuitBreaker m r) history = cb at hhalf hmove hmu hsettled ⊢
  have hne : cb.state ≠ State.StateOpen := by
    rw [hhalf]
    exact fun h => State.noConfusion h
  have hc : checkState { cb with mu := true } now = { cb with mu := true } :=
    checkState_not_open _ now hne
  have hcall := Call_of_admitted cb now op hmu (by rw [hc]; exact hne)
  rw [hc] at hcall
  rw [hcall] at hmove ⊢
  by_cases h2 : cb.halfOpenMaxCalls ≤ cb.successCount
  · rw [halfOpenCheck_stale { cb with mu := true } hhalf h2]
    exact hsettled h2
  · rw [halfOpenCheck_young { cb with mu := true } (not_le.mp h2)] at hmove
    have hmove1 : cb.state = State.StateClosed := hmove
    rw [hhalf] at hmove1
    exact State.noConfusion hmove1

theorem failureCount_zero_when_closing_witness :
    (Call (recordCalls (NewCircuitBreaker 3 2000000000) tripAndRecover) 2000000005
      failingOp).cb.failureCount = 0 ∧
    (runCalls (NewCircuitBreaker 3 2000000000) tripAndRecover).1.state = State.StateClosed ∧
    (runCalls (NewCircuitBreaker 3 2000000000) tripAndRecover).2.length ≤ 1 :=
  failureCount_zero_when_closing 3 2000000000 tripAndRecover tripAndRecover 2000000005
    failingOp (by decide) (by decide)

end CircuitBreakerLab

namespace FuzzReverse

theorem swapBytes_spec (b : List Byte) (i j : Int) (hi : 0 ≤ i) (hij : i < j)
    (hj : j < b.length) :
    (swapBytes b i j).length = b.length ∧
    ∀ k : Nat, (swapBytes b i j)[k]? =
      if k = j.toNat then b[i.toNat]? else if k = i.toNat then b[j.toNat]? else b[k]? := by
  have hi1 : i.toNat < b.length := by omega
  have hj1 : j.toNat < b.length := by omega
  have hx : b[i.toNat]? = some b[i.toNat] := List.getElem?_eq_getElem hi1
  have hy : b[j.toNat]? = some b[j.toNat] := List.getElem?_eq_getElem hj1
  have hne : i.toNat ≠ j.toNat := by omega
  unfold swapBytes
  rw [hx, hy]
  refine ⟨by simp, ?_⟩
  intro k
  rw [List.getElem?_set, List.getElem?_set]
  simp only [List.length_set]
  by_cases h1 : k = j.toNat
  · subst h1
    simp [hj1]
  · by_cases h2 : k = i.toNat
    · subst h2
      simp [hi1, hne, Ne.symm hne]
    · simp [h1, h2, Ne.symm h1, Ne.symm h2]

theorem reverseLoop_spec (n : Nat) :
    ∀ (b : List Byte) (i j : Int), (j - i).toNat ≤ n → 0 ≤ i → j < b.length →
      (reverseLoop b i j).length = b.length ∧
      ∀ k : Nat, (reverseLoop b i j)[k]? =
        if i ≤ k ∧ (k : Int) ≤ j then b[(i + j - k).toNat]? else b[k]? := by
  induction n with
  | zero =>
    intro b i j hn hi hj
    have hnot : ¬ i < j := by omega
    rw [reverseLoop, if_neg hnot]
    refine ⟨rfl, ?_⟩
    intro k
    split_ifs with h
    · have hk : (i + j - k).toNat = k := by omega
      rw [hk]
    · rfl
  | succ n ih =>
    intro b i j hn hi hj
    by_cases hlt : i < j
    · rw [reverseLoop, if_pos hlt]
      obtain ⟨hlen, hget⟩ := swapBytes_spec b i j hi hlt hj
      obtain ⟨hlen1, hget1⟩ := ih (swapBytes b i j) (i + 1) (j - 1) (by omega) (by omega)
        (by rw [hlen]; omega)
      refine ⟨hlen1.trans hlen, ?_⟩
      intro k
      rw [hget1, hget, hget]
      by_cases hin : i + 1 ≤ k ∧ (k : Int) ≤ j - 1
      · have h1 : (i + 1 + (j - 1) - k).toNat ≠ j.toNat := by omega
        have h2 : (i + 1 + (j - 1) - k).toNat ≠ i.toNat := by omega
        have h3 : i ≤ k ∧ (k : Int) ≤ j := by omega
        have h4 : (i + 1 + (j - 1) - k).toNat = (i + j - k).toNat := by omega
        rw [if_pos hin, if_neg h1, if_neg h2, if_pos h3, h4]
      · rw [if_neg hin]
        by_cases hkj : k = j.toNat
        · have h3 : i ≤ k ∧ (k : Int) ≤ j := by omega
          have h4 : (i + j - k).toNat = i.toNat := by omega
          rw [if_pos hkj, if_pos h3, h4]
        · by_cases hki : k = i.toNat
          · have h3 : i ≤ k ∧ (k : Int) ≤ j := by omega
            have h4 : (i + j - k).toNat = j.toNat := by omega
            rw [if_neg hkj, if_pos hki, if_pos h3, h4]
          · have h3 : ¬ (i ≤ k ∧ (k : Int) ≤ j) := by omega
            rw [if_neg hkj, if_neg hki, if_neg h3]
    · rw [reverseLoop, if_neg hlt]
      refine ⟨rfl, ?_⟩
      intro k
      split_ifs with h
      · have hk : (i + j - k).toNat = k := by omega
        rw [hk]
      · rfl

/-- The loop of `Reverse` gives the bytes in the opposite order. -/
theorem Reverse_eq_reverse (s : List Byte) : Reverse s = s.reverse := by
  obtain ⟨hlen, hget⟩ := reverseLoop_spec (((s.length : Int) - 1 - 0).toNat) s 0
    ((s.length : Int) - 1) (le_refl _) (le_refl _) (by omega)
  apply List.ext_getElem?
  intro k
  unfold Reverse
  rw [hget]
  by_cases hk : k < s.length
  · have h3 : (0 : Int) ≤ k ∧ (k : Int) ≤ (s.length : Int) - 1 := by omega
    have h4 : ((0 : Int) + ((s.length : Int) - 1) - k).toNat = s.length - 1 - k := by omega
    rw [if_pos h3, h4, List.getElem?_reverse hk]
  · have h3 : ¬ ((0 : Int) ≤ k ∧ (k : Int) ≤ (s.length : Int) - 1) := by omega
    rw [if_neg h3, List.getElem?_eq_none (by omega),
      List.getElem?_eq_none (by rw [List.length_reverse]; omega)]

/-- C15: reversing a string twice gives the string back, whatever its bytes. -/
theorem Reverse_Reverse (s : List Byte) : Reverse (Reverse s) = s := by
  rw [Reverse_eq_reverse, Reverse_eq_reverse, List.reverse_reverse]

end FuzzReverse

namespace RetryBackoff

/-- The loop stops at the first invocation that does not fail with a temporary
error, when there is one within `maxRetries`: it returns what that invocation
returned, and it has slept once for every invocation before it. -/
theorem retryLoop_stops (scale : Int → Int) (maxRetries : Int) (fn : Nat → Option GoErr)
    (k0 : Nat) (hk0 : (k0 : Int) < maxRetries)
    (hstop : fn k0 = none ∨ ∃ e, fn k0 = some e ∧ errorsIsTemporary e = false) :
    ∀ (d fuel : Nat) (i delay : Int) (err : Option GoErr) (calls : Nat) (sleeps : List Int),
      k0 = calls + d → i = (calls : Int) → maxRetries - i < fuel →
      (∀ j, calls ≤ j → j < k0 → ∃ e, fn j = some e ∧ errorsIsTemporary e = true) →
      ∃ run, retryLoop scale maxRetries fn fuel i delay err calls sleeps = some run ∧
        run.err = fn k0 ∧ run.calls = k0 + 1 ∧ run.sleeps.length = sleeps.length + d := by
  intro d
  induction d with
  | zero =>
    intro fuel i delay err calls sleeps hk hi hfuel _
    have hcalls : calls = k0 := by omega
    subst hcalls
    cases fuel with
    | zero => omega
    | succ f =>
      have hlt : i < maxRetries := by omega
      rcases hstop with hnil | ⟨e, he, hperm⟩
      · refine ⟨{ err := none, calls := calls + 1, sleeps := sleeps }, ?_, hnil.symm, rfl, rfl⟩
        simp only [retryLoop, if_pos hlt, hnil]
      · refine ⟨{ err := some e, calls := calls + 1, sleeps := sleeps }, ?_, he.symm, rfl, rfl⟩
        simp only [retryLoop, if_pos hlt, he, hperm, if_true]
  | succ d ih =>
    intro fuel i delay err calls sleeps hk hi hfuel hearlier
    obtain ⟨e, he, htemp⟩ := hearlier calls (le_refl _) (by omega)
    cases fuel with
    | zero => omega
    | succ f =>
      have hlt : i < maxRetries := by omega
      have hlt1 : i < maxRetries - 1 := by omega
      have hnotperm : ¬ errorsIsTemporary e = false := by rw [htemp]; decide
      obtain ⟨run, hrun, h1, h2, h3⟩ := ih f (i + 1) (scale delay) (some e) (calls + 1)
        (sleeps ++ [delay]) (by omega) (by omega) (by omega)
        (fun j hj1 hj2 => hearlier j (by omega) hj2)
      refine ⟨run, ?_, h1, h2, ?_⟩
      · simp only [retryLoop, if_pos hlt, he, if_neg hnotperm, if_pos hlt1]
        exact hrun
      · rw [h3, List.length_append, List.length_singleton]
        omega

/-- The loop always comes to an end, and it does not invoke `fn` more than
`maxRetries` times. -/
theorem retryLoop_calls_le (scale : Int → Int) (maxRetries : Int) (fn : Nat → Option GoErr) :
    ∀ (fuel : Nat) (i delay : Int) (err : Option GoErr) (calls : Nat) (sleeps : List Int),
      i = (calls : Int) → i ≤ maxRetries → maxRetries - i < fuel →
      ∃ run, retryLoop scale maxRetries fn fuel i delay err calls sleeps = some run ∧
        (run.calls : Int) ≤ maxRetries := by
  intro fuel
  induction fuel with
  | zero => intro i delay err calls sleeps _ hle hfuel; omega
  | succ f ih =>
    intro i delay err calls sleeps hi hle hfuel
    by_cases hlt : i < maxRetries
    · cases hfn : fn calls with
      | none =>
        refine ⟨{ err := none, calls := calls + 1, sleeps := sleeps }, ?_, ?_⟩
        · simp only [retryLoop, if_pos hlt, hfn]
        · simp only [Nat.cast_add, Nat.cast_one]; omega
      | some e =>
        by_cases hperm : errorsIsTemporary e = false
        · refine ⟨{ err := some e, calls := calls + 1, sleeps := sleeps }, ?_, ?_⟩
          · simp only [retryLoop, if_pos hlt, hfn, if_pos hperm]
          · simp only [Nat.cast_add, Nat.cast_one]; omega
        · by_cases hlt1 : i < maxRetries - 1
          · obtain ⟨run, hrun, h1⟩ := ih (i + 1) (scale delay) (some e) (calls + 1)
              (sleeps ++ [delay]) (by simp only [Nat.cast_add, Nat.cast_one]; omega)
              (by omega) (by omega)
            refine ⟨run, ?_, h1⟩
            simp only [retryLoop, if_pos hlt, hfn, if_neg hperm, if_pos hlt1]
            exact hrun
          · obtain ⟨run, hrun, h1⟩ := ih (i + 1) delay (some e) (calls + 1)
              sleeps (by simp only [Nat.cast_add, Nat.cast_one]; omega)
              (by omega) (by omega)
            refine ⟨run, ?_, h1⟩
            simp only [retryLoop, if_pos hlt, hfn, if_neg hperm, if_neg hlt1]
            exact hrun
    · refine ⟨{ err := some (failedAfter maxRetries err), calls := calls, sleeps := sleeps },
        ?_, ?_⟩
      · simp only [retryLoop, if_neg hlt]
      · show (calls : Int) ≤ maxRetries
        omega

/-- C16: when the `k`-th invocation of `fn` is the first to return `nil` and all
invocations before it failed with an error matching `ErrTemporaryFailure`,
`RetryWithBackoff` returns `nil` after `k` invocations; and whatever the
operation does, it is invoked at most `maxRetries` times. -/
theorem RetryWithBackoff_first_success (scale : Int → Int) (maxRetries initialDelay : Int)
    (fn other : Nat → Option GoErr) (k : Nat)
    (hk1 : 1 ≤ k) (hk2 : (k : Int) ≤ maxRetries)
    (hnil : fn (k - 1) = none)
    (hearlier : ∀ j, j < k - 1 → ∃ e, fn j = some e ∧ errorsIsTemporary e = true) :
    (∃ run, RetryWithBackoff scale maxRetries initialDelay fn = some run ∧
      run.err = none ∧ run.calls = k) ∧
    (∃ run, RetryWithBackoff scale maxRetries initialDelay other = some run ∧
      (run.calls : Int) ≤ maxRetries) := by
  constructor
  · obtain ⟨run, hrun, h1, h2, _⟩ := retryLoop_stops scale maxRetries fn (k - 1) (by omega)
      (Or.inl hnil) (k - 1) (maxRetries.toNat + 1) 0 initialDelay none 0 [] (by omega) rfl
      (by omega) (fun j _ hj => hearlier j hj)
    exact ⟨run, hrun, h1.trans hnil, by omega⟩
  · exact retryLoop_calls_le scale maxRetries other (maxRetries.toNat + 1) 0 initialDelay none 0 []
      rfl (by omega) (by omega)

theorem RetryWithBackoff_first_success_witness :
    (∃ run, RetryWithBackoff scaleThreeHalves 5 100000000 demoOperation = some run ∧
      run.err = none ∧ run.calls = 3) ∧
    (∃ run, RetryWithBackoff scaleThreeHalves 5 100000000 brokenOperation = some run ∧
      (run.calls : Int) ≤ 5) :=
  RetryWithBackoff_first_success scaleThreeHalves 5 100000000 demoOperation brokenOperation 3
    (by decide) (by decide) (by decide)
    (fun j hj => ⟨ErrTemporaryFailure, by
      have h : j = 0 ∨ j = 1 := by omega
      rcases h with h | h <;> subst h <;> decide, rfl⟩)

/-- C17: when the `k`-th invocation of `fn` is made and fails with an error that
does not match `ErrTemporaryFailure`, `RetryWithBackoff` returns that very error
after `k` invocations, and the only sleeps are the `k - 1` that came before that
invocation. -/
theorem RetryWithBackoff_permanent_error (scale : Int → Int) (maxRetries initialDelay : Int)
    (fn : Nat → Option GoErr) (k : Nat) (e : GoErr)
    (hk1 : 1 ≤ k) (hk2 : (k : Int) ≤ maxRetries)
    (hperm : fn (k - 1) = some e) (hnot : errorsIsTemporary e = false)
    (hearlier : ∀ j, j < k - 1 → ∃ t, fn j = some t ∧ errorsIsTemporary t = true) :
    ∃ run, RetryWithBackoff scale maxRetries initialDelay fn = some run ∧
      run.err = some e ∧ run.calls = k ∧ run.sleeps.length = k - 1 := by
  obtain ⟨run, hrun, h1, h2, h3⟩ := retryLoop_stops scale maxRetries fn (k - 1) (by omega)
    (Or.inr ⟨e, hperm, hnot⟩) (k - 1) (maxRetries.toNat + 1) 0 initialDelay none 0 []
    (by omega) rfl (by omega) (fun j _ hj => hearlier j hj)
  exact ⟨run, hrun, h1.trans hperm, by omega, by simpa using h3⟩

theorem RetryWithBackoff_permanent_error_witness :
    ∃ run, RetryWithBackoff scaleThreeHalves 5 100000000 brokenOperation = some run ∧
      run.err = some (GoErr.plain "disk full") ∧ run.calls = 2 ∧ run.sleeps.length = 2 - 1 :=
  RetryWithBackoff_permanent_error scaleThreeHalves 5 100000000 brokenOperation 2
    (GoErr.plain "disk full") (by decide) (by decide) (by decide) (by decide)
    (fun j hj => ⟨ErrTemporaryFailure, by
      have h : j = 0 := by omega
      subst h; decide, rfl⟩)

/-- C20: for an attempt from 0 to 62, `ExponentialBackoff` is two to the power
`attempt` times the base delay, as a 64-bit product; for attempt 0 that is the
base delay, and one attempt more doubles the delay, as a 64-bit product. -/
theorem ExponentialBackoff_power_of_two (powTwo : Int → Int) (attempt baseDelay : Int)
    (hpow : ∀ n : Int, 0 ≤ n → n ≤ 62 → powTwo n = 2 ^ n.toNat)
    (h0 : 0 ≤ attempt) (h62 : attempt ≤ 62)
    (hlo : CircuitBreakerLab.minInt64 ≤ baseDelay)
    (hhi : baseDelay ≤ CircuitBreakerLab.maxInt64) :
    ExponentialBackoff powTwo attempt baseDelay
      = CircuitBreakerLab.wrapInt64 (2 ^ attempt.toNat * baseDelay) ∧
    ExponentialBackoff powTwo 0 baseDelay = baseDelay ∧
    (attempt < 62 →
      ExponentialBackoff powTwo (attempt + 1) baseDelay
        = CircuitBreakerLab.wrapInt64 (2 * ExponentialBackoff powTwo attempt baseDelay)) := by
  refine ⟨?_, ?_, ?_⟩
  · unfold ExponentialBackoff
    rw [hpow attempt h0 h62]
  · unfold ExponentialBackoff
    rw [hpow 0 (le_refl _) (by decide)]
    simp only [Int.toNat_zero, pow_zero, one_mul]
    exact CircuitBreakerLab.wrapInt64_of_range _ hlo hhi
  · intro hlt
    unfold ExponentialBackoff
    rw [hpow attempt h0 h62, hpow (attempt + 1) (by omega) (by omega)]
    have hn : (attempt + 1).toNat = attempt.toNat + 1 := by omega
    rw [hn, pow_succ, mul_comm (2 ^ attempt.toNat) 2, mul_assoc]
    generalize (2 : Int) ^ attempt.toNat * baseDelay = x
    unfold CircuitBreakerLab.wrapInt64
    omega

theorem ExponentialBackoff_power_of_two_witness :
    ExponentialBackoff powTwoExact 3 100000000
      = CircuitBreakerLab.wrapInt64 (2 ^ (3 : Int).toNat * 100000000) ∧
    ExponentialBackoff powTwoExact 0 100000000 = 100000000 ∧
    ExponentialBackoff powTwoExact (3 + 1) 100000000
      = CircuitBreakerLab.wrapInt64 (2 * ExponentialBackoff powTwoExact 3 100000000) :=
  have h := ExponentialBackoff_power_of_two powTwoExact 3 100000000 (fun _ _ _ => rfl)
    (by decide) (by decide) (by decide) (by decide)
  ⟨h.1, h.2.1, h.2.2 (by decide)⟩

end RetryBackoff

namespace FunctionalOptions

theorem NewServer_append (opts : List ServerOption) (opt : ServerOption) :
    NewServer (opts ++ [opt]) = opt (NewServer opts) := by
  simp [NewServer, List.foldl_append]

theorem getLast?_filterMap_concat {α β : Type} (f : α → Option β) (l : List α) (x : α) :
    ((l ++ [x]).filterMap f).getLast? = (f x).or ((l.filterMap f).getLast?) := by
  rw [List.filterMap_append]
  cases hx : f x with
  | none => simp [List.filterMap, hx]
  | some y => simp [List.filterMap, hx]

/-- The fields of a server built from calls of the four functions: each is the
value named by the last call for that field, and the default when there is no
such call. -/
theorem NewServer_settings (settings : List Setting) :
    (NewServer (settings.map Setting.toOption)).host
      = ((settings.filterMap Setting.hostOf).getLast?).getD "localhost" ∧
    (NewServer (settings.map Setting.toOption)).port
      = ((settings.filterMap Setting.portOf).getLast?).getD 8080 ∧
    (NewServer (settings.map Setting.toOption)).timeout
      = ((settings.filterMap Setting.timeoutOf).getLast?).getD 30000000000 ∧
    (NewServer (settings.map Setting.toOption)).tls
      = ((settings.filterMap Setting.tlsOf).getLast?).getD false := by
  induction settings using List.reverseRecOn with
  | nil => exact ⟨rfl, rfl, rfl, rfl⟩
  | append_singleton l x ih =>
    obtain ⟨h1, h2, h3, h4⟩ := ih
    rw [List.map_append, List.map_singleton, NewServer_append]
    simp only [getLast?_filterMap_concat]
    cases x with
    | host h => exact ⟨rfl, h2, h3, h4⟩
    | port p => exact ⟨h1, rfl, h3, h4⟩
    | timeout t => exact ⟨h1, h2, rfl, h4⟩
    | tls b => exact ⟨h1, h2, h3, rfl⟩

/-- C18: without options `NewServer` gives the four defaults; the options are
applied from left to right; each of the four kinds of option changes its own
field and no other; so a field has the value of the last option given for it,
and its default when no option is given for it. -/
theorem NewServer_defaults_and_options (opts : List ServerOption) (opt : ServerOption)
    (s : Server) (h : String) (p t : Int) (b : Bool) (settings : List Setting) :
    NewServer [] = { host := "localhost", port := 8080, timeout := 30000000000, tls := false } ∧
    NewServer (opts ++ [opt]) = opt (NewServer opts) ∧
    WithHost h s = { host := h, port := s.port, timeout := s.timeout, tls := s.tls } ∧
    WithPort p s = { host := s.host, port := p, timeout := s.timeout, tls := s.tls } ∧
    WithTimeout t s = { host := s.host, port := s.port, timeout := t, tls := s.tls } ∧
    WithTLS b s = { host := s.host, port := s.port, timeout := s.timeout, tls := b } ∧
    (NewServer (settings.map Setting.toOption)).host
      = ((settings.filterMap Setting.hostOf).getLast?).getD "localhost" ∧
    (NewServer (settings.map Setting.toOption)).port
      = ((settings.filterMap Setting.portOf).getLast?).getD 8080 ∧
    (NewServer (settings.map Setting.toOption)).timeout
      = ((settings.filterMap Setting.timeoutOf).getLast?).getD 30000000000 ∧
    (NewServer (settings.map Setting.toOption)).tls
      = ((settings.filterMap Setting.tlsOf).getLast?).getD false :=
  ⟨rfl, NewServer_append opts opt, rfl, rfl, rfl, rfl, NewServer_settings settings⟩

end FunctionalOptions

namespace UnitTesting

theorem storeAll_users (stored : List User) (id : Int) (hid : ∀ v ∈ stored, v.ID ≠ id) :
    ∀ m : MockUserRepository, m.users id = none →
      (stored.foldl SetUser m).users id = none := by
  induction stored with
  | nil => intro m hm; exact hm
  | cons u rest ih =>
    intro m hm
    have hu : u.ID ≠ id := hid u (List.mem_cons_self u rest)
    apply ih (fun v hv => hid v (List.mem_cons_of_mem u hv)) (SetUser m u)
    show (if id = u.ID then some u else m.users id) = none
    rw [if_neg (Ne.symm hu)]
    exact hm

/-- C19: after `SetUser(u)`, `GetUser(u.ID)` returns `u` and no error; and in a
repository in which users have been stored, none of them under `id`, `GetUser(id)`
returns no user and a `NotFoundError` with that `id`. -/
theorem GetUser_after_SetUser (m : MockUserRepository) (u : User) (stored : List User)
    (id : Int) (hid : ∀ v ∈ stored, v.ID ≠ id) :
    GetUser (SetUser m u) u.ID = (some u, none) ∧
    GetUser (storeAll stored) id = (none, some { ID := id }) := by
  constructor
  · simp [GetUser, SetUser]
  · have h := storeAll_users stored id hid NewMockUserRepository rfl
    unfold storeAll GetUser
    rw [h]

theorem GetUser_after_SetUser_witness :
    GetUser (SetUser NewMockUserRepository { ID := 1, Name := "John" })
        (User.ID { ID := 1, Name := "John" })
      = (some { ID := 1, Name := "John" }, none) ∧
    GetUser (storeAll [{ ID := 1, Name := "John" }]) 999 = (none, some { ID := 999 }) :=
  GetUser_after_SetUser NewMockUserRepository { ID := 1, Name := "John" }
    [{ ID := 1, Name := "John" }] 999 (by decide)

end UnitTesting

namespace Methods

/-- C21: for the point (3, 4) `Distance` returns 25, the square of the distance;
the distance from the origin is 5, the number whose square is 25. -/
theorem Distance_is_squared :
    Point.Distance { X := 3, Y := 4 } = 25 ∧
    Point.Distance { X := 3, Y := 4 } ≠ 5 ∧
    (5 : ℚ) * 5 = Point.Distance { X := 3, Y := 4 } := by
  refine ⟨?_, ?_, ?_⟩ <;> norm_num [Point.Distance]

end Methods

namespace TypesStructs

/-- C27: when `demonstratePointers` prints, the email of `p1` is
"john@example.com", not empty: the call `p1.SetEmail` has written the variable
`p1`, just as the call `p2.SetEmail` has written the struct `p2` points to. -/
theorem SetEmail_modifies_p1 :
    demonstratePointers 0
      = some { Name := "John", Age := 30, email := "john@example.com", BirthDate := 0 } ∧
    (demonstratePointers 0).map GetEmail ≠ some "" ∧
    (demonstratePointers 1).map GetEmail = some "jane@example.com" := by
  decide

end TypesStructs

namespace UnitTesting

/-- C22, counterexample: the sum of the largest `int` and 1 is not what `Add`
returns; it returns the smallest `int`. -/
theorem Add_overflows :
    Add 9223372036854775807 1 ≠ 9223372036854775807 + 1 ∧
    Add 9223372036854775807 1 = -9223372036854775808 := by
  decide

/-- C22, amended: `Add` returns the sum wrapped to 64 bits, which is the sum
whenever the sum is an `int`; the four sums of the table hold; `Add` is
commutative and 0 is its identity. -/
theorem Add_sum (a b : Int)
    (ha1 : CircuitBreakerLab.minInt64 ≤ a) (ha2 : a ≤ CircuitBreakerLab.maxInt64)
    (hsum1 : CircuitBreakerLab.minInt64 ≤ a + b) (hsum2 : a + b ≤ CircuitBreakerLab.maxInt64) :
    Add a b = a + b ∧
    Add 2 3 = 5 ∧ Add (-2) (-3) = -5 ∧ Add 0 5 = 5 ∧ Add (-2) 3 = 1 ∧
    Add a b = Add b a ∧ Add a 0 = a ∧ Add 0 a = a := by
  refine ⟨?_, by decide, by decide, by decide, by decide, ?_, ?_, ?_⟩
  · exact CircuitBreakerLab.wrapInt64_of_range _ hsum1 hsum2
  · unfold Add
    rw [add_comm]
  · unfold Add
    rw [add_zero]
    exact CircuitBreakerLab.wrapInt64_of_range _ ha1 ha2
  · unfold Add
    rw [zero_add]
    exact CircuitBreakerLab.wrapInt64_of_range _ ha1 ha2

theorem Add_sum_witness :
    Add (-2) 3 = -2 + 3 ∧
    Add 2 3 = 5 ∧ Add (-2) (-3) = -5 ∧ Add 0 5 = 5 ∧ Add (-2) 3 = 1 ∧
    Add (-2) 3 = Add 3 (-2) ∧ Add (-2) 0 = -2 ∧ Add 0 (-2) = -2 :=
  Add_sum (-2) 3 (by decide) (by decide) (by decide) (by decide)

end UnitTesting

namespace RetryBackoff

/-- When every invocation that is still to be made fails with a temporary error,
the loop makes all of them, sleeps before each but the first, and wraps the last
error. -/
theorem retryLoop_exhausts (scale : Int → Int) (maxRetries : Int) (fn : Nat → Option GoErr) :
    ∀ (d fuel : Nat) (i delay : Int) (err : Option GoErr) (calls : Nat) (sleeps : List Int),
      maxRetries = (calls : Int) + d → i = (calls : Int) → d < fuel →
      (∀ j, calls ≤ j → (j : Int) < maxRetries →
        ∃ e, fn j = some e ∧ errorsIsTemporary e = true) →
      ∃ run, retryLoop scale maxRetries fn fuel i delay err calls sleeps = some run ∧
        run.calls = calls + d ∧
        run.err = some (failedAfter maxRetries (if d = 0 then err else fn (calls + d - 1))) ∧
        run.sleeps.length = sleeps.length + (d - 1) := by
  intro d
  induction d with
  | zero =>
    intro fuel i delay err calls sleeps hmax hi hfuel _
    cases fuel with
    | zero => omega
    | succ f =>
      have hnot : ¬ i < maxRetries := by omega
      exact ⟨{ err := some (failedAfter maxRetries err), calls := calls, sleeps := sleeps },
        by simp only [retryLoop, if_neg hnot], rfl, rfl, rfl⟩
  | succ d ih =>
    intro fuel i delay err calls sleeps hmax hi hfuel hall
    simp only [Nat.cast_add, Nat.cast_one] at hmax
    obtain ⟨e, he, htemp⟩ := hall calls (le_refl _) (by omega)
    cases fuel with
    | zero => omega
    | succ f =>
      have hlt : i < maxRetries := by omega
      have hnotperm : ¬ errorsIsTemporary e = false := by rw [htemp]; exact Bool.noConfusion
      by_cases hlt1 : i < maxRetries - 1
      · obtain ⟨run, hrun, h1, h2, h3⟩ := ih f (i + 1) (scale delay) (some e) (calls + 1)
          (sleeps ++ [delay]) (by simp only [Nat.cast_add, Nat.cast_one]; omega)
          (by simp only [Nat.cast_add, Nat.cast_one]; omega) (by omega)
          (fun j hj1 hj2 => hall j (by omega) hj2)
        have hd : d ≠ 0 := by omega
        refine ⟨run, ?_, by omega, ?_, ?_⟩
        · simp only [retryLoop, if_pos hlt, he, if_neg hnotperm, if_pos hlt1]
          exact hrun
        · rw [h2, if_neg hd, if_neg (Nat.succ_ne_zero d)]
          have hidx : calls + 1 + d - 1 = calls + (d + 1) - 1 := by omega
          rw [hidx]
        · rw [h3, List.length_append, List.length_singleton]
          omega
      · obtain ⟨run, hrun, h1, h2, h3⟩ := ih f (i + 1) delay (some e) (calls + 1)
          sleeps (by simp only [Nat.cast_add, Nat.cast_one]; omega)
          (by simp only [Nat.cast_add, Nat.cast_one]; omega) (by omega)
          (fun j hj1 hj2 => hall j (by omega) hj2)
        have hd : d = 0 := by omega
        refine ⟨run, ?_, by omega, ?_, ?_⟩
        · simp only [retryLoop, if_pos hlt, he, if_neg hnotperm, if_neg hlt1]
          exact hrun
        · rw [h2, if_pos hd, if_neg (Nat.succ_ne_zero d)]
          have hidx : calls + (d + 1) - 1 = calls := by omega
          rw [hidx, he]
        · rw [h3]
          omega

/-- C26: when every invocation of `fn` fails with an error matching
`ErrTemporaryFailure`, `RetryWithBackoff` invokes `fn` `maxRetries` times, sleeps
`maxRetries - 1` times, and returns an error that wraps the error of the last
invocation and therefore matches `ErrTemporaryFailure` itself. -/
theorem RetryWithBackoff_exhausted (scale : Int → Int) (maxRetries initialDelay : Int)
    (fn : Nat → Option GoErr) (hmax : 1 ≤ maxRetries)
    (hall : ∀ j, ∃ e, fn j = some e ∧ errorsIsTemporary e = true) :
    ∃ run last result,
      RetryWithBackoff scale maxRetries initialDelay fn = some run ∧
      (run.calls : Int) = maxRetries ∧
      (run.sleeps.length : Int) = maxRetries - 1 ∧
      fn (run.calls - 1) = some last ∧
      run.err = some result ∧
      result = GoErr.wrapped
        ("failed after " ++ toString maxRetries ++ " retries: " ++ last.text) last ∧
      errorsIsTemporary result = true := by
  obtain ⟨run, hrun, h1, h2, h3⟩ := retryLoop_exhausts scale maxRetries fn maxRetries.toNat
    (maxRetries.toNat + 1) 0 initialDelay none 0 [] (by omega) rfl (by omega)
    (fun j _ _ => hall j)
  obtain ⟨last, hlast, htemp⟩ := hall (maxRetries.toNat - 1)
  have hd : maxRetries.toNat ≠ 0 := by omega
  rw [if_neg hd, Nat.zero_add, hlast] at h2
  refine ⟨run, last, _, hrun, by omega, ?_, ?_, h2, rfl, htemp⟩
  · rw [h3]
    simp only [List.length_nil, Nat.zero_add]
    omega
  · rw [h1, Nat.zero_add]
    exact hlast

theorem RetryWithBackoff_exhausted_witness :
    ∃ run last result,
      RetryWithBackoff scaleThreeHalves 5 100000000 (fun _ => some ErrTemporaryFailure)
        = some run ∧
      (run.calls : Int) = 5 ∧
      (run.sleeps.length : Int) = 5 - 1 ∧
      (fun _ => some ErrTemporaryFailure) (run.calls - 1) = some last ∧
      run.err = some result ∧
      result = GoErr.wrapped
        ("failed after " ++ toString (5 : Int) ++ " retries: " ++ last.text) last ∧
      errorsIsTemporary result = true :=
  RetryWithBackoff_exhausted scaleThreeHalves 5 100000000 (fun _ => some ErrTemporaryFailure)
    (by decide) (fun _ => ⟨ErrTemporaryFailure, rfl, rfl⟩)

end RetryBackoff

namespace CircuitBreakerLab

/-! ## What holds between calls -/

theorem Settled_checkState (m : Int) (cb : CircuitBreaker) (now : Int) (h : Settled m cb) :
    Settled m (checkState cb now) := by
  obtain ⟨mu, st, fc, sc, mf, rt, lt, hm⟩ := cb
  obtain ⟨h1, h2, h3, h4, h5, h6, h7⟩ := h
  simp only at h1 h2 h3 h4 h5 h6 h7
  unfold checkState
  simp only
  split_ifs with hopen hge
  · subst hopen
    exact ⟨h1, h2, le_refl _, (by decide : (0 : Int) ≤ 3), fun hh => State.noConfusion hh,
      fun hh => State.noConfusion hh,
      fun _ hh => absurd (show (3 : Int) ≤ 0 from hh) (by decide)⟩
  · exact ⟨h1, h2, h3, h4, h5, h6, h7⟩
  · exact ⟨h1, h2, h3, h4, h5, h6, h7⟩

theorem Settled_halfOpenCheck (m : Int) (cb : CircuitBreaker) (hm1 : 1 ≤ m)
    (h : Settled m cb) :
    Settled m (halfOpenCheck cb) ∧
    ((halfOpenCheck cb).state = State.StateHalfOpen → (halfOpenCheck cb).successCount < 3) ∧
    (cb.state ≠ State.StateOpen → (halfOpenCheck cb).state ≠ State.StateOpen) := by
  obtain ⟨h1, h2, h3, h4, h5, h6, h7⟩ := h
  by_cases hhalf : cb.state = State.StateHalfOpen
  · by_cases hsc : cb.halfOpenMaxCalls ≤ cb.successCount
    · rw [halfOpenCheck_stale cb hhalf hsc]
      have hfc : cb.failureCount = 0 := h7 hhalf (by omega)
      refine ⟨⟨h1, h2, le_refl _, (by decide : (0 : Int) ≤ 3), fun hh => State.noConfusion hh,
        fun _ => ?_, fun hh => State.noConfusion hh⟩, fun hh => State.noConfusion hh,
        fun _ hh => State.noConfusion hh⟩
      show 0 ≤ cb.failureCount ∧ cb.failureCount < m
      omega
    · rw [halfOpenCheck_young cb (not_le.mp hsc)]
      exact ⟨⟨h1, h2, h3, h4, h5, h6, h7⟩, fun _ => by omega, fun hh => hh⟩
  · rw [halfOpenCheck_other cb hhalf]
    exact ⟨⟨h1, h2, h3, h4, h5, h6, h7⟩, fun hh => absurd hh hhalf, fun hh => hh⟩

theorem Settled_onSuccess (m : Int) (cb : CircuitBreaker) (hm1 : 1 ≤ m)
    (h : Settled m cb) (hnot : cb.state ≠ State.StateOpen)
    (hyoung : cb.state = State.StateHalfOpen → cb.successCount < 3) :
    Settled m (onSuccess cb) := by
  obtain ⟨h1, h2, h3, h4, h5, h6, h7⟩ := h
  by_cases hhalf : cb.state = State.StateHalfOpen
  · have hlt := hyoung hhalf
    rw [onSuccess_halfOpen cb hhalf h3 (by unfold maxInt64; omega)]
    refine ⟨h1, h2, ?_, ?_, fun hh => absurd hh hnot, fun hh => ?_, fun _ _ => rfl⟩
    · show 0 ≤ cb.successCount + 1
      omega
    · show cb.successCount + 1 ≤ 3
      omega
    · have hcl : cb.state = State.StateClosed := hh
      rw [hhalf] at hcl
      exact State.noConfusion hcl
  · have hs : onSuccess cb = { cb with failureCount := 0 } := by
      unfold onSuccess
      simp only
      rw [if_neg hhalf]
    rw [hs]
    refine ⟨h1, h2, h3, h4, fun hh => absurd hh hnot, fun _ => ?_, fun _ _ => rfl⟩
    show (0 : Int) ≤ 0 ∧ (0 : Int) < m
    omega

theorem Settled_onFailure (m : Int) (cb : CircuitBreaker) (t : Int) (hm2 : m ≤ maxInt64)
    (h : Settled m cb) (hnot : cb.state ≠ State.StateOpen)
    (hyoung : cb.state = State.StateHalfOpen → cb.successCount < 3) :
    Settled m (onFailure cb t) := by
  obtain ⟨mu, st, fc, sc, mf, rt, lt, hm⟩ := cb
  obtain ⟨h1, h2, h3, h4, h5, h6, h7⟩ := h
  simp only at h1 h2 h3 h4 h5 h6 h7 hnot hyoung
  subst h1
  unfold maxInt64 at hm2
  unfold onFailure
  simp only
  split_ifs with hge
  · exact ⟨rfl, h2, h3, h4, fun _ => hge, fun hh => State.noConfusion hh,
      fun hh => State.noConfusion hh⟩
  · refine ⟨rfl, h2, h3, h4, fun hh => absurd hh hnot, fun hh => ?_, fun hh hsc => ?_⟩
    · have hb := h6 hh
      have hge1 : ¬ wrapInt64 (fc + 1) ≥ mf := hge
      show 0 ≤ wrapInt64 (fc + 1) ∧ wrapInt64 (fc + 1) < mf
      unfold wrapInt64 at hge1 ⊢
      omega
    · have hlt := hyoung hh
      have hsc1 : 3 ≤ sc := hsc
      omega

theorem Settled_recordCall (m : Int) (cb : CircuitBreaker) (c : Int × Operation)
    (hm1 : 1 ≤ m) (hm2 : m ≤ maxInt64) (h : Settled m cb) : Settled m (recordCall cb c) := by
  have hc := Settled_checkState m cb c.1 h
  unfold recordCall
  simp only
  by_cases hopen : (checkState cb c.1).state = State.StateOpen
  · rw [if_pos hopen]
    exact hc
  · rw [if_neg hopen]
    obtain ⟨ha, hyoung, hnot⟩ := Settled_halfOpenCheck m (checkState cb c.1) hm1 hc
    cases c.2.result with
    | none => exact Settled_onSuccess m _ hm1 ha (hnot hopen) hyoung
    | some e => exact Settled_onFailure m _ _ hm2 ha (hnot hopen) hyoung

theorem Settled_recordCalls (m : Int) (hm1 : 1 ≤ m) (hm2 : m ≤ maxInt64)
    (calls : List (Int × Operation)) :
    ∀ cb : CircuitBreaker, Settled m cb → Settled m (recordCalls cb calls) := by
  induction calls with
  | nil => intro cb h; exact h
  | cons c rest ih => intro cb h; exact ih (recordCall cb c) (Settled_recordCall m cb c hm1 hm2 h)

theorem Settled_NewCircuitBreaker (m r : Int) (hm1 : 1 ≤ m) :
    Settled m (NewCircuitBreaker m r) :=
  ⟨rfl, rfl, le_refl _, (by decide : (0 : Int) ≤ 3), fun hh => State.noConfusion hh,
    fun _ => ⟨le_refl _, by show (0 : Int) < m; omega⟩, fun hh => State.noConfusion hh⟩

end CircuitBreakerLab

namespace CircuitBreakerLab

theorem runCalls_failureCount_of_closed (calls : List (Int × Operation)) (cb : CircuitBreaker)
    (hmu : cb.mu = false) (hcl : cb.state = State.StateClosed) :
    (runCalls cb calls).1.failureCount = cb.failureCount := by
  cases calls with
  | nil => rfl
  | cons c rest =>
    obtain ⟨now, op⟩ := c
    have hne : cb.state ≠ State.StateOpen := by
      rw [hcl]
      exact fun h => State.noConfusion h
    have hc : checkState { cb with mu := true } now = { cb with mu := true } :=
      checkState_not_open _ now hne
    have hcall := Call_of_admitted cb now op hmu (by rw [hc]; exact hne)
    rw [hc, halfOpenCheck_of_closed _ (by exact hcl)] at hcall
    simp [runCalls, hcall, Exec.hasReturned]

/-- C24: a call whose operation fails on a half-open breaker records nothing: with
`failureCount + 1 >= maxFailures` the breaker is still half-open, not open, and
with fewer failures `failureCount` is not increased; `onFailure` is not reached. -/
theorem halfOpen_failure_not_recorded :
    (Call halfOpenBreaker 11 failingOp).outcome = Outcome.blockedForever ∧
    (Call halfOpenBreaker 11 failingOp).cb.state = State.StateHalfOpen ∧
    (Call halfOpenBreaker 11 failingOp).cb.failureCount = 3 ∧
    (onFailure halfOpenBreaker 11).state = State.StateOpen ∧
    (Call (recordCalls (NewCircuitBreaker 3 2000000000) (interruptedRecovery.take 5))
      2000000004 failingOp).cb.failureCount = 0 ∧
    (onFailure (recordCalls (NewCircuitBreaker 3 2000000000) (interruptedRecovery.take 5))
      2000000004).failureCount = 1 := by
  decide

/-- C25: on a half-open breaker that has its three successes the call sets the
state to closed and `successCount` to 0 and runs the operation once, but the
failure of the operation is not recorded: `failureCount` is still 0, where the
bookkeeping of the call would make it 1. -/
theorem stale_halfOpen_outcome_not_recorded :
    (recordCalls (NewCircuitBreaker 3 2000000000) tripAndRecover).state
      = State.StateHalfOpen ∧
    (recordCalls (NewCircuitBreaker 3 2000000000) tripAndRecover).successCount = 3 ∧
    (Call (recordCalls (NewCircuitBreaker 3 2000000000) tripAndRecover) 2000000005
      failingOp).cb.state = State.StateClosed ∧
    (Call (recordCalls (NewCircuitBreaker 3 2000000000) tripAndRecover) 2000000005
      failingOp).cb.successCount = 0 ∧
    (Call (recordCalls (NewCircuitBreaker 3 2000000000) tripAndRecover) 2000000005
      failingOp).invocations = 1 ∧
    (Call (recordCalls (NewCircuitBreaker 3 2000000000) tripAndRecover) 2000000005
      failingOp).outcome = Outcome.blockedForever ∧
    (Call (recordCalls (NewCircuitBreaker 3 2000000000) tripAndRecover) 2000000005
      failingOp).cb.failureCount = 0 ∧
    (recordCall (recordCalls (NewCircuitBreaker 3 2000000000) tripAndRecover)
      (2000000005, failingOp)).failureCount = 1 := by
  decide

/-- C29: for a breaker made by `NewCircuitBreaker` with `maxFailures` at least 1,
after the bookkeeping of any list of calls an open breaker has at least
`maxFailures` failures and a closed breaker has a `failureCount` from 0 to
`maxFailures - 1`; and the calls a single caller can make in the code as it
stands leave the breaker closed with `failureCount` 0. -/
theorem counters_between_calls (m r : Int) (history calls : List (Int × Operation))
    (hm1 : 1 ≤ m) (hm2 : m ≤ maxInt64) :
    ((recordCalls (NewCircuitBreaker m r) history).state = State.StateOpen →
      m ≤ (recordCalls (NewCircuitBreaker m r) history).failureCount) ∧
    ((recordCalls (NewCircuitBreaker m r) history).state = State.StateClosed →
      0 ≤ (recordCalls (NewCircuitBreaker m r) history).failureCount ∧
      (recordCalls (NewCircuitBreaker m r) history).failureCount < m) ∧
    (runCalls (NewCircuitBreaker m r) calls).1.state = State.StateClosed ∧
    (runCalls (NewCircuitBreaker m r) calls).1.failureCount = 0 := by
  obtain ⟨_, _, _, _, h5, h6, _⟩ :=
    Settled_recordCalls m hm1 hm2 history _ (Settled_NewCircuitBreaker m r hm1)
  exact ⟨h5, h6, (runCalls_of_closed calls _ rfl rfl).1,
    runCalls_failureCount_of_closed calls _ rfl rfl⟩

theorem counters_between_calls_witness :
    (3 : Int) ≤ (recordCalls (NewCircuitBreaker 3 2000000000) threeFailures).failureCount ∧
    (0 ≤ (recordCalls (NewCircuitBreaker 3 2000000000) [(0, failingOp)]).failureCount ∧
      (recordCalls (NewCircuitBreaker 3 2000000000) [(0, failingOp)]).failureCount < 3) ∧
    (runCalls (NewCircuitBreaker 3 2000000000) demoScenario).1.state = State.StateClosed ∧
    (runCalls (NewCircuitBreaker 3 2000000000) demoScenario).1.failureCount = 0 :=
  have h1 := counters_between_calls 3 2000000000 threeFailures demoScenario
    (by decide) (by decide)
  have h2 := counters_between_calls 3 2000000000 [(0, failingOp)] demoScenario
    (by decide) (by decide)
  ⟨h1.1 (by decide), h2.2.1 (by decide), h1.2.2.1, h1.2.2.2⟩

end CircuitBreakerLab

namespace CircuitBreakerLab

/-! ## What a run of calls can contain -/

/-- A call that comes back to its caller has not run its operation: the only
way back is the refusal of line 54. -/
theorem Call_returned_invocations (cb : CircuitBreaker) (now : Int) (op : Operation)
    (hret : (Call cb now op).hasReturned = true) : (Call cb now op).invocations = 0 := by
  by_cases hmu : cb.mu = true
  · have hcall : Call cb now op
        = { cb := cb, outcome := Outcome.blockedForever, trace := [Event.lockWaits] } := by
      unfold Call
      rw [if_pos hmu]
    rw [hcall] at hret
    exact Bool.noConfusion hret
  · have hmu1 : cb.mu = false := by simpa using hmu
    by_cases hopen : (checkState { cb with mu := true } now).state = State.StateOpen
    · have hheld : (checkState { cb with mu := true } now).mu = true := checkState_mu _ now
      have hcall : Call cb now op
          = { cb := { checkState { cb with mu := true } now with mu := false }
              outcome := Outcome.returned (some (errorsNew circuitOpenText))
              trace := [Event.lockAcquired, Event.unlocked] } := by
        unfold Call
        rw [if_neg hmu]
        simp only [if_pos hopen]
        simp [runDeferred, unlockMu, hheld]
      rw [hcall]
      rfl
    · rw [Call_of_admitted cb now op hmu1 hopen] at hret
      exact Bool.noConfusion hret

/-- In a run in which every call has come back, no operation has been run. -/
theorem admittedResults_of_returned (calls : List (Int × Operation)) :
    ∀ cb : CircuitBreaker, (runCalls cb calls).2.all Exec.hasReturned = true →
      admittedResults calls (runCalls cb calls).2 = [] := by
  induction calls with
  | nil => intro cb _; rfl
  | cons c rest ih =>
    intro cb hall
    obtain ⟨now, op⟩ := c
    by_cases hret : (Call cb now op).hasReturned = true
    · have hrun : runCalls cb ((now, op) :: rest)
          = ((runCalls (Call cb now op).cb rest).1,
              Call cb now op :: (runCalls (Call cb now op).cb rest).2) := by
        simp [runCalls, hret]
      rw [hrun] at hall ⊢
      simp only [List.all_cons, Bool.and_eq_true] at hall
      have hrest := ih (Call cb now op).cb hall.2
      have hzero := Call_returned_invocations cb now op hret
      unfold admittedResults at hrest ⊢
      simp only [List.zip_cons_cons]
      rw [List.filter_cons_of_neg (by simp [hzero])]
      exact hrest
    · have hrun : runCalls cb ((now, op) :: rest) = ((Call cb now op).cb, [Call cb now op]) := by
        simp [runCalls, hret]
      rw [hrun] at hall
      simp only [List.all_cons, List.all_nil, Bool.and_true] at hall
      exact absurd hall hret

/-- C23: in the program no call follows an admitted operation: a call is made
only when all calls before it have come back, and a call that comes back has not
run its operation.  So whenever a call moves the breaker from half-open to closed,
no operation was admitted before it, and each of the three most recently admitted
operations, of which there are none, succeeded.  A breaker made by
`NewCircuitBreaker` is never found half-open by a call at all: it stays closed,
and at most one call is started. -/
theorem closing_Call_follows_no_failure (cb0 : CircuitBreaker)
    (before calls : List (Int × Operation)) (now : Int) (op : Operation) (m r : Int)
    (hmade : (runCalls cb0 before).2.all Exec.hasReturned = true)
    (_hhalf : (runCalls cb0 before).1.state = State.StateHalfOpen)
    (_hmove : (Call (runCalls cb0 before).1 now op).cb.state = State.StateClosed) :
    (∀ res ∈ ((admittedResults before (runCalls cb0 before).2).reverse.take 3), res = none) ∧
    admittedResults before (runCalls cb0 before).2 = [] ∧
    (runCalls (NewCircuitBreaker m r) calls).1.state = State.StateClosed ∧
    (runCalls (NewCircuitBreaker m r) calls).2.length ≤ 1 := by
  have hnone := admittedResults_of_returned before cb0 hmade
  refine ⟨?_, hnone, runCalls_of_closed calls _ rfl rfl⟩
  rw [hnone]
  intro res hres
  simp at hres

theorem closing_Call_follows_no_failure_witness :
    (∀ res ∈ ((admittedResults [] (runCalls staleHalfOpenBreaker []).2).reverse.take 3),
      res = none) ∧
    admittedResults [] (runCalls staleHalfOpenBreaker []).2 = [] ∧
    (runCalls (NewCircuitBreaker 3 2000000000) interruptedRecovery).1.state
      = State.StateClosed ∧
    (runCalls (NewCircuitBreaker 3 2000000000) interruptedRecovery).2.length ≤ 1 :=
  closing_Call_follows_no_failure staleHalfOpenBreaker [] interruptedRecovery 2000000005
    succeedingOp 3 2000000000 (by decide) (by decide) (by decide)

/-- C28: a breaker made by `NewCircuitBreaker` is closed whenever a call is made
on it, so no call moves it from open to half-open; and for an open breaker with
at least `maxFailures` failures, which is what `onFailure` leaves when it opens a
breaker, the admission check that moves it to half-open resets nothing of
`failureCount`, so that `onFailure` for the failed trial opens it again. -/
theorem trial_failure_reopens (m r : Int) (calls : List (Int × Operation))
    (cb : CircuitBreaker) (now t : Int)
    (hm1 : 1 ≤ cb.maxFailures) (hmax : 0 < cb.halfOpenMaxCalls)
    (hopen : cb.state = State.StateOpen)
    (hcount : cb.maxFailures ≤ cb.failureCount) (hfc : cb.failureCount < maxInt64)
    (hmoved : (checkState cb now).state = State.StateHalfOpen) :
    (runCalls (NewCircuitBreaker m r) calls).1.state = State.StateClosed ∧
    (runCalls (NewCircuitBreaker m r) calls).2.length ≤ 1 ∧
    (checkState cb now).failureCount = cb.failureCount ∧
    (onFailure (halfOpenCheck (checkState cb now)) t).state = State.StateOpen := by
  have hc : checkState cb now = { cb with state := State.StateHalfOpen, successCount := 0 } := by
    by_cases hge : cb.resetTimeout ≤ since now cb.lastFailureTime
    · exact checkState_open_late cb now hopen hge
    · rw [checkState_open_early cb now hopen (not_le.mp hge), hopen] at hmoved
      exact State.noConfusion hmoved
  have hh : halfOpenCheck { cb with state := State.StateHalfOpen, successCount := 0 }
      = { cb with state := State.StateHalfOpen, successCount := 0 } :=
    halfOpenCheck_young _ hmax
  refine ⟨(runCalls_of_closed calls _ rfl rfl).1, (runCalls_of_closed calls _ rfl rfl).2, ?_, ?_⟩
  · rw [hc]
  · rw [hc, hh]
    exact onFailure_reach { cb with state := State.StateHalfOpen, successCount := 0 } t
      (by show 0 ≤ cb.failureCount; omega)
      (by show cb.maxFailures ≤ cb.failureCount + 1; omega) hfc

theorem trial_failure_reopens_witness :
    (runCalls (NewCircuitBreaker 3 2000000000) demoScenario).1.state = State.StateClosed ∧
    (runCalls (NewCircuitBreaker 3 2000000000) demoScenario).2.length ≤ 1 ∧
    (checkState openBreaker 2000000010).failureCount = openBreaker.failureCount ∧
    (onFailure (halfOpenCheck (checkState openBreaker 2000000010)) 2000000011).state
      = State.StateOpen :=
  trial_failure_reopens 3 2000000000 demoScenario openBreaker 2000000010 2000000011
    (by decide) (by decide) (by decide) (by decide) (by decide) (by decide)

end CircuitBreakerLab
